import Mathlib

/-!
Verification of the binlog-relay write path of `sessionctx/binloginfo`
(write coordinator with skip-on-error circuit breaker, DDL special-comment
annotator, relay address validator) against its natural-language design
specification.

Strings are embedded as `List Char`; each `Char` models one byte of the
original Go string (all behaviour of interest is on ASCII data, where Go
bytes and runes coincide).  Machine `uint32` counters are embedded as `Nat`
(they are only ever compared with `0` and incremented once, so no wraparound
is reachable in the modelled paths).  External collaborators (the pump relay
client, the metrics counter, the transaction's option slot) are embedded at
their interface boundary: the relay client is a value carrying the outcome
its `WriteBinlog` call would report, the metrics counter is a `Nat` field of
the breaker state, and the transaction keeps an explicit `BinlogInfo` option
slot next to an opaque remainder.
-/

/-! ## Go string primitives -/

/-- Strings as lists of (byte-sized) characters. -/
abbrev Str := List Char

/-- Model of `strings.Contains hay pat`. -/
def strContains (hay pat : Str) : Bool :=
  match hay with
  | [] => pat.isPrefixOf ([] : Str)
  | _ :: t => pat.isPrefixOf hay || strContains t pat

/-- Model of `strings.Contains hay (string-of-one-char c)`. -/
def strContainsChar (hay : Str) (c : Char) : Bool :=
  hay.any (fun a => a == c)

/-- Character class of Go's `unicode.IsSpace` restricted to Latin-1
(`\t \n \v \f \r ' '` U+0085 U+00A0); this is the set relevant to the
ASCII/Latin-1 inputs of this code. -/
def goIsSpace (c : Char) : Bool :=
  c == ' ' || c == '\t' || c == '\n' || c == '\x0b' || c == '\x0c' ||
  c == '\r' || c == '\x85' || c == '\xa0'

/-- Model of `strings.TrimSpace`. -/
def trimSpace (s : Str) : Str :=
  ((s.dropWhile goIsSpace).reverse.dropWhile goIsSpace).reverse

/-- Model of `strings.Split s ","`: split on every comma, keeping empty
fields. -/
def goSplitComma : Str → List Str
  | [] => [[]]
  | c :: t =>
    if c = ',' then [] :: goSplitComma t
    else
      match goSplitComma t with
      | [] => [[c]]
      | g :: gs => (c :: g) :: gs

/-- Model of `strings.Cut s (one-char sep)`: text before the first
occurrence, text after it, and whether it occurred. -/
def goCut (sep : Char) : Str → Str × Str × Bool
  | [] => ([], [], false)
  | a :: t =>
    if a = sep then ([], t, true)
    else
      let r := goCut sep t
      (a :: r.1, r.2.1, r.2.2)

/-- Split at the last occurrence of `sep`: `some (before, after)` when `sep`
occurs (Go's `strings.LastIndex` pattern), `none` otherwise. -/
def splitAtLast (sep : Char) : Str → Option (Str × Str)
  | [] => none
  | a :: t =>
    match splitAtLast sep t with
    | some (pre, suf) => some (a :: pre, suf)
    | none => if a = sep then some ([], t) else none

/-- Go `'a' <= c && c <= 'z' || 'A' <= c && c <= 'Z'` on bytes. -/
def isAlphaGo (c : Char) : Bool :=
  (97 ≤ c.toNat && c.toNat ≤ 122) || (65 ≤ c.toNat && c.toNat ≤ 90)

/-- Go `'0' <= c && c <= '9'` on bytes. -/
def isDigitGo (c : Char) : Bool :=
  48 ≤ c.toNat && c.toNat ≤ 57

/-! ## DDL annotator (`addSpecialComment`, binloginfo.go lines 223-237) -/

/-- The sentinel marker `/*!90000 ` that opens the special comment. -/
def specialPrefixMark : Str := "/*!90000 ".toList

/-- Character class `\s` of Go's `regexp` (RE2): `[\t\n\f\r ]`. -/
def goIsWsRe (c : Char) : Bool :=
  c == '\t' || c == '\n' || c == '\x0c' || c == '\r' || c == ' '

/-- The literal part `SHARD_ROW_ID_BITS` of the annotator's pattern. -/
def sridPat : Str := "SHARD_ROW_ID_BITS".toList

/-- Length of the (unique, greedy) match of the RE2 pattern
`SHARD_ROW_ID_BITS\s*=\s*\d+` anchored at the front of `s`, or `none` when
the pattern does not match there.  Greediness is forced: `\s*` runs cannot
eat the following `=` and `\d+` takes the maximal digit run. -/
def matchClauseLen (s : Str) : Option Nat :=
  if sridPat.isPrefixOf s then
    let r1 := s.drop 17
    let w1 := (r1.takeWhile goIsWsRe).length
    let r2 := r1.drop w1
    match r2 with
    | '=' :: r3 =>
      let w2 := (r3.takeWhile goIsWsRe).length
      let r4 := r3.drop w2
      let d := (r4.takeWhile isDigitGo).length
      if d = 0 then none else some (17 + w1 + 1 + w2 + d)
    | _ => none
  else none

/-- Scan for the leftmost match of the clause pattern, returning byte
offsets `(start, end)` as Go's `Regexp.FindStringIndex` does. -/
def findClauseAux (i : Nat) : Str → Option (Nat × Nat)
  | [] => none
  | s@(_ :: t) =>
    match matchClauseLen s with
    | some n => some (i, i + n)
    | none => findClauseAux (i + 1) t

/-- Model of `reg.FindStringIndex upperQuery` for the compiled pattern
`SHARD_ROW_ID_BITS\s*=\s*\d+`. -/
def findClause (s : Str) : Option (Nat × Nat) := findClauseAux 0 s

/-- Model of `strings.ToUpper` restricted to ASCII (the Go function maps
full Unicode; on the ASCII bytes relevant here the two agree and are
length-preserving). -/
def upperQ (s : Str) : Str := s.map Char.toUpper

/-- Model of `addSpecialComment` (binloginfo.go lines 225-237): skip when
the marker is already present, otherwise wrap the leftmost
`SHARD_ROW_ID_BITS = <digits>` clause of the uppercased query in the
version-gated comment, splicing at the match's byte offsets. -/
def addSpecialComment (ddlQuery : Str) : Str :=
  if strContains ddlQuery specialPrefixMark then ddlQuery
  else
    match findClause (upperQ ddlQuery) with
    | none => ddlQuery
    | some (i, j) =>
      ddlQuery.take i ++ specialPrefixMark ++ ((ddlQuery.drop i).take (j - i)) ++
        " */".toList ++ ddlQuery.drop j

/-! ## Write coordinator and breaker state (binloginfo.go lines 142-203) -/

/-- Binlog event types used by this core (go-binlog `BinlogType`). -/
inductive BinlogType
  | Prewrite
  | Commit
  | Rollback
deriving DecidableEq, Repr

/-- The fields of a go-binlog `Binlog` event that this core reads or
writes. -/
structure Binlog where
  tp : BinlogType
  ddlJobId : Int
  ddlQuery : Str
  startTs : Int
deriving DecidableEq, Repr

/-- The external pump relay client, embedded at its interface boundary:
`writeResult = none` means its `WriteBinlog` call reports success,
`writeResult = some msg` means it reports an error whose `Error()` text is
`msg`. -/
structure PumpsClient where
  writeResult : Option Str
deriving DecidableEq, Repr

/-- Model of the `BinlogInfo` struct: event data plus the (possibly nil)
shared client handle. -/
structure BinlogInfo where
  data : Binlog
  client : Option PumpsClient
deriving DecidableEq, Repr

/-- The process-wide mutable state read and written by `WriteBinlog`:
`skipBinlog` and `ignoreError` (both Go `uint32` atomics) and the
critical-error metrics counter. -/
structure BreakerState where
  skipBinlog : Nat
  ignoreError : Nat
  criticalErrorCounter : Nat
deriving DecidableEq, Repr

/-- The classified error outcomes of `WriteBinlog`:
`pumpsClientNil` for `errors.New("pumps client is nil")`,
`payloadTooLarge` for `errors.Errorf("binlog data is too large (%s)", ...)`,
`critical` for `terror.ErrCritical.GenWithStackByArgs(err)`. -/
inductive WriteError
  | pumpsClientNil
  | payloadTooLarge (msg : Str)
  | critical (msg : Str)
deriving DecidableEq, Repr

/-- Model of `atomic.CompareAndSwapUint32(&x, expected, newv)`: the stored
value becomes `newv` only if it is still `expected`. -/
def casUint32 (cur expected newv : Nat) : Nat :=
  if cur = expected then newv else cur

/-- The substring by which `WriteBinlog` recognises an oversized-payload
error from the relay client. -/
def tooLargeMarker : Str := "received message larger than max".toList

/-- Result of one `WriteBinlog` call: the breaker state after the call, the
returned error (`none` = nil), and whether the relay client's `WriteBinlog`
was invoked. -/
structure WriteOutcome where
  state : BreakerState
  err : Option WriteError
  clientCalled : Bool
deriving DecidableEq, Repr

/-- Model of `(*BinlogInfo).WriteBinlog` (binloginfo.go lines 171-203):
short-circuit when the skip counter is positive; fail when no client is
configured; on a client error either absorb it (ignore-error mode: count,
CAS-bump the skip counter keyed on the value loaded at entry, report
success), classify it as an oversized payload, or escalate it as
critical. -/
def WriteBinlog (info : BinlogInfo) (s : BreakerState) : WriteOutcome :=
  let skip := s.skipBinlog
  if skip > 0 then
    ⟨{ s with criticalErrorCounter := s.criticalErrorCounter + 1 }, none, false⟩
  else
    match info.client with
    | none => ⟨s, some .pumpsClientNil, false⟩
    | some c =>
      match c.writeResult with
      | none => ⟨s, none, true⟩
      | some msg =>
        if s.ignoreError = 1 then
          ⟨{ s with
              criticalErrorCounter := s.criticalErrorCounter + 1,
              skipBinlog := casUint32 s.skipBinlog skip (skip + 1) }, none, true⟩
        else if strContains msg tooLargeMarker then
          ⟨s, some (.payloadTooLarge msg), true⟩
        else
          ⟨s, some (.critical msg), true⟩

/-- Model of `DisableSkipBinlogFlag`: store 0 into the skip counter. -/
def DisableSkipBinlogFlag (s : BreakerState) : BreakerState :=
  { s with skipBinlog := 0 }

/-- Model of `SetIgnoreError`. -/
def SetIgnoreError (b : Bool) (s : BreakerState) : BreakerState :=
  { s with ignoreError := if b then 1 else 0 }

/-- Run a sequence of `WriteBinlog` calls, collecting the per-call errors
and whether any call invoked the relay client. -/
def runWrites (s : BreakerState) : List BinlogInfo → BreakerState × List (Option WriteError) × Bool
  | [] => (s, [], false)
  | i :: t =>
    let o := WriteBinlog i s
    let r := runWrites o.state t
    (r.1, o.err :: r.2.1, o.clientCalled || r.2.2)

/-! ## `SetDDLBinlog` (binloginfo.go lines 205-221) -/

/-- A transaction, embedded at the interface this core touches: the
`kv.BinlogInfo` option slot, next to an opaque abstraction of every other
piece of transaction state (which `SetOption(kv.BinlogInfo, ...)` does not
touch). -/
structure Transaction where
  binlogOpt : Option BinlogInfo
  otherState : Nat
deriving DecidableEq, Repr

/-- Model of `txn.SetOption(kv.BinlogInfo, info)`. -/
def setOptionBinlogInfo (txn : Transaction) (info : BinlogInfo) : Transaction :=
  { txn with binlogOpt := some info }

/-- Model of `SetDDLBinlog`: a nil client returns without touching the
transaction; otherwise the annotated query is packed into a Prewrite binlog
event and stored in the transaction's `kv.BinlogInfo` option. -/
def SetDDLBinlog (client : Option PumpsClient) (txn : Transaction) (jobID : Int)
    (ddlQuery : Str) : Transaction :=
  match client with
  | none => txn
  | some c =>
    setOptionBinlogInfo txn
      { data := { tp := .Prewrite, ddlJobId := jobID, ddlQuery := addSpecialComment ddlQuery,
                  startTs := 0 },
        client := some c }

/-! ## `SetGRPCTimeout` (second binloginfo variant, lines 76-82) -/

/-- Go `time.Duration` is an `int64` count of nanoseconds. -/
abbrev GoDuration := Int

/-- `300 * time.Millisecond` in nanoseconds. -/
def threshold300ms : GoDuration := 300 * 1000000

/-- Model of `SetGRPCTimeout`: values below 300ms are ignored (the current
global `binlogWriteTimeout` is kept), anything else is stored. -/
def SetGRPCTimeout (timeout : GoDuration) (binlogWriteTimeout : GoDuration) : GoDuration :=
  if timeout < threshold300ms then binlogWriteTimeout
  else timeout

/-! ## Basic lemmas about `strContains` -/

theorem strContains_of_isPrefixOf {hay pat : Str} (h : pat.isPrefixOf hay = true) :
    strContains hay pat = true := by
  cases hay with
  | nil => simpa [strContains] using h
  | cons a t => simp [strContains, h]

theorem strContains_append_right {b pat : Str} (a : Str) (h : strContains b pat = true) :
    strContains (a ++ b) pat = true := by
  induction a with
  | nil => simpa using h
  | cons c t ih =>
    simp [strContains, ih]

theorem strContains_self_append (pat b : Str) : strContains (pat ++ b) pat = true :=
  strContains_of_isPrefixOf (List.isPrefixOf_iff_prefix.mpr (List.prefix_append pat b))

/-! ## Claim C2: breaker open short-circuits every write -/

/-- C2: whenever the skip counter is positive, `WriteBinlog` returns nil,
adds 1 to the critical-error counter, leaves every other piece of breaker
state (in particular the skip counter) unchanged, and never invokes the
relay client; consequently any sequence of subsequent writes returns all-nil
results without any client invocation, until `DisableSkipBinlogFlag`
explicitly resets the counter to 0. -/
theorem c2_breaker_open_short_circuit (s : BreakerState) (infos : List BinlogInfo)
    (h : 0 < s.skipBinlog) :
    (∀ info : BinlogInfo,
      WriteBinlog info s =
        ⟨{ s with criticalErrorCounter := s.criticalErrorCounter + 1 }, none, false⟩) ∧
    runWrites s infos =
      ({ s with criticalErrorCounter := s.criticalErrorCounter + infos.length },
        List.replicate infos.length none, false) ∧
    (DisableSkipBinlogFlag s).skipBinlog = 0 := by
  refine ⟨fun info => by simp [WriteBinlog, h], ?_, rfl⟩
  induction infos generalizing s with
  | nil => simp [runWrites]
  | cons i t ih =>
    have hstep : WriteBinlog i s =
        ⟨{ s with criticalErrorCounter := s.criticalErrorCounter + 1 }, none, false⟩ := by
      simp [WriteBinlog, h]
    have hrec := ih { s with criticalErrorCounter := s.criticalErrorCounter + 1 } h
    simp only [runWrites, hstep, hrec]
    simp [List.replicate_succ, Nat.add_assoc, Nat.add_comm 1 t.length]

/-- Closed witness for C2 at a concrete tripped state and write sequence. -/
theorem c2_witness :
    0 < (1 : Nat) ∧
    runWrites ⟨1, 0, 7⟩ [⟨⟨.Prewrite, 0, [], 0⟩, some ⟨none⟩⟩, ⟨⟨.Commit, 0, [], 0⟩, none⟩] =
      (⟨1, 0, 9⟩, [none, none], false) := by
  refine ⟨by decide, ?_⟩
  have h := (c2_breaker_open_short_circuit ⟨1, 0, 7⟩
    [⟨⟨.Prewrite, 0, [], 0⟩, some ⟨none⟩⟩, ⟨⟨.Commit, 0, [], 0⟩, none⟩] (by decide)).2.1
  simpa using h

/-! ## Claim C3: ignore-error absorption with CAS bump, escalation otherwise -/

/-- C3: with the breaker closed, a client configured, and the client
reporting an error: if `ignoreError` is set, the call returns nil, adds 1 to
the critical-error counter and bumps the skip counter through the
compare-and-swap keyed on the value observed at entry (so it becomes
observed+1); if `ignoreError` is unset and the message is not an
oversized-payload report, the call escalates a critical error and leaves the
breaker state untouched. -/
theorem c3_ignore_error_absorbs_and_trips (s : BreakerState) (info : BinlogInfo)
    (c : PumpsClient) (msg : Str) (hskip : s.skipBinlog = 0) (hc : info.client = some c)
    (hw : c.writeResult = some msg) :
    (s.ignoreError = 1 →
      WriteBinlog info s =
        ⟨{ s with
            criticalErrorCounter := s.criticalErrorCounter + 1,
            skipBinlog := casUint32 s.skipBinlog s.skipBinlog (s.skipBinlog + 1) },
          none, true⟩ ∧
      (WriteBinlog info s).state.skipBinlog = s.skipBinlog + 1) ∧
    (s.ignoreError ≠ 1 → strContains msg tooLargeMarker = false →
      WriteBinlog info s = ⟨s, some (.critical msg), true⟩) := by
  constructor
  · intro hig
    have h1 : WriteBinlog info s =
        ⟨{ s with
            criticalErrorCounter := s.criticalErrorCounter + 1,
            skipBinlog := casUint32 s.skipBinlog s.skipBinlog (s.skipBinlog + 1) },
          none, true⟩ := by
      simp [WriteBinlog, hskip, hc, hw, hig]
    refine ⟨h1, ?_⟩
    rw [h1]
    simp [casUint32]
  · intro hig hmsg
    simp [WriteBinlog, hskip, hc, hw, hig, hmsg]

/-- Closed witness for C3 at concrete states and error messages. -/
theorem c3_witness :
    ((⟨0, 1, 5⟩ : BreakerState).skipBinlog = 0 ∧
      (⟨⟨.Prewrite, 3, [], 0⟩, some ⟨some ['b']⟩⟩ : BinlogInfo).client = some ⟨some ['b']⟩ ∧
      (⟨some ['b']⟩ : PumpsClient).writeResult = some ['b']) ∧
    WriteBinlog ⟨⟨.Prewrite, 3, [], 0⟩, some ⟨some ['b']⟩⟩ ⟨0, 1, 5⟩ = ⟨⟨1, 1, 6⟩, none, true⟩ ∧
    WriteBinlog ⟨⟨.Prewrite, 3, [], 0⟩, some ⟨some ['b']⟩⟩ ⟨0, 0, 5⟩ =
      ⟨⟨0, 0, 5⟩, some (.critical ['b']), true⟩ := by
  refine ⟨⟨rfl, rfl, rfl⟩, ?_, ?_⟩
  · have h := ((c3_ignore_error_absorbs_and_trips ⟨0, 1, 5⟩
      ⟨⟨.Prewrite, 3, [], 0⟩, some ⟨some ['b']⟩⟩ ⟨some ['b']⟩ ['b'] rfl rfl rfl).1 rfl).1
    simpa [casUint32] using h
  · have h := (c3_ignore_error_absorbs_and_trips ⟨0, 0, 5⟩
      ⟨⟨.Prewrite, 3, [], 0⟩, some ⟨some ['b']⟩⟩ ⟨some ['b']⟩ ['b'] rfl rfl rfl).2
      (by decide) (by decide)
    simpa using h

/-! ## Claim C1: oversized payload vs ignore-error precedence -/

/-- A concrete oversized-payload error text as the gRPC layer reports it. -/
def tooLargeMsgSample : Str :=
  "rpc error: received message larger than max (2049 vs. 1024)".toList

/-- C1 counterexample: with the breaker closed, a client configured, the
client reporting a message-too-large error, and `ignoreError` set, the code
takes the ignore path: it returns nil (not a payload-too-large error) and
trips the breaker (skip counter 0 becomes 1).  The claim asserted a
payload-too-large error and an untouched skip counter regardless of
`ignoreError`. -/
theorem c1_counterexample :
    strContains tooLargeMsgSample tooLargeMarker = true ∧
    WriteBinlog ⟨⟨.Prewrite, 0, [], 0⟩, some ⟨some tooLargeMsgSample⟩⟩ ⟨0, 1, 0⟩ =
      ⟨⟨1, 1, 1⟩, none, true⟩ := by
  exact ⟨by decide, by decide⟩

/-- C1 (amended): the too-large classification applies only when
`ignoreError` is not set; in that case `WriteBinlog` returns the non-fatal
payload-too-large error and leaves the whole breaker state — in particular
the skip counter — unchanged. -/
theorem c1_payload_too_large_not_ignored (s : BreakerState) (info : BinlogInfo)
    (c : PumpsClient) (msg : Str) (hskip : s.skipBinlog = 0) (hc : info.client = some c)
    (hw : c.writeResult = some msg) (hig : s.ignoreError ≠ 1)
    (hmsg : strContains msg tooLargeMarker = true) :
    WriteBinlog info s = ⟨s, some (.payloadTooLarge msg), true⟩ := by
  simp [WriteBinlog, hskip, hc, hw, hig, hmsg]

/-- Closed witness for the amended C1 at a concrete state and message. -/
theorem c1_witness :
    ((⟨0, 0, 2⟩ : BreakerState).skipBinlog = 0 ∧ (⟨0, 0, 2⟩ : BreakerState).ignoreError ≠ 1 ∧
      strContains tooLargeMsgSample tooLargeMarker = true) ∧
    WriteBinlog ⟨⟨.Prewrite, 0, [], 0⟩, some ⟨some tooLargeMsgSample⟩⟩ ⟨0, 0, 2⟩ =
      ⟨⟨0, 0, 2⟩, some (.payloadTooLarge tooLargeMsgSample), true⟩ := by
  refine ⟨⟨rfl, by decide, by decide⟩, ?_⟩
  exact c1_payload_too_large_not_ignored ⟨0, 0, 2⟩
    ⟨⟨.Prewrite, 0, [], 0⟩, some ⟨some tooLargeMsgSample⟩⟩ ⟨some tooLargeMsgSample⟩
    tooLargeMsgSample rfl rfl rfl (by decide) (by decide)

/-! ## Claim C8: `SetDDLBinlog` frame effect -/

/-- C8: with a nil client `SetDDLBinlog` is a complete no-op on the
transaction; with a client it stores exactly a Prewrite-type event carrying
the annotated query and the given job id in the `kv.BinlogInfo` option slot,
leaving the rest of the transaction state unchanged. -/
theorem c8_set_ddl_binlog_frame (txn : Transaction) (jobID : Int) (q : Str) :
    SetDDLBinlog none txn jobID q = txn ∧
    (∀ c : PumpsClient,
      SetDDLBinlog (some c) txn jobID q =
        { binlogOpt := some
            { data := { tp := .Prewrite, ddlJobId := jobID,
                        ddlQuery := addSpecialComment q, startTs := 0 },
              client := some c },
          otherState := txn.otherState }) :=
  ⟨rfl, fun _ => rfl⟩

/-- Closed witness for C8 at a concrete transaction and query. -/
theorem c8_witness :
    SetDDLBinlog none ⟨none, 42⟩ 7 "CREATE TABLE t (a int)".toList = ⟨none, 42⟩ ∧
    SetDDLBinlog (some ⟨none⟩) ⟨none, 42⟩ 7 "CREATE TABLE t (a int)".toList =
      { binlogOpt := some
          { data := { tp := .Prewrite, ddlJobId := 7,
                      ddlQuery := addSpecialComment "CREATE TABLE t (a int)".toList,
                      startTs := 0 },
            client := some ⟨none⟩ },
        otherState := 42 } := by
  exact ⟨(c8_set_ddl_binlog_frame ⟨none, 42⟩ 7 _).1,
    (c8_set_ddl_binlog_frame ⟨none, 42⟩ 7 _).2 ⟨none⟩⟩

/-! ## Claim C10: `SetGRPCTimeout` threshold -/

/-- C10: a timeout below 300ms leaves the global binlog write timeout
unchanged; a timeout of at least 300ms is stored exactly. -/
theorem c10_set_grpc_timeout_threshold (t cur : GoDuration) :
    (t < threshold300ms → SetGRPCTimeout t cur = cur) ∧
    (threshold300ms ≤ t → SetGRPCTimeout t cur = t) := by
  constructor
  · intro h; simp [SetGRPCTimeout, h]
  · intro h; simp [SetGRPCTimeout, not_lt.mpr h]

/-- Closed witness for C10 on both sides of the threshold. -/
theorem c10_witness :
    ((299999999 : GoDuration) < threshold300ms ∧
      SetGRPCTimeout 299999999 15000000000 = 15000000000) ∧
    (threshold300ms ≤ (300000000 : GoDuration) ∧
      SetGRPCTimeout 300000000 15000000000 = 300000000) :=
  ⟨⟨by decide, (c10_set_grpc_timeout_threshold 299999999 15000000000).1 (by decide)⟩,
    ⟨by decide, (c10_set_grpc_timeout_threshold 300000000 15000000000).2 (by decide)⟩⟩

/-! ## Claim C4: annotator idempotence -/

theorem strContains_middle (a b pat : Str) :
    strContains (a ++ (pat ++ b)) pat = true :=
  strContains_append_right _ (strContains_self_append _ _)

/-- C4: the DDL annotator is idempotent, and an input already containing
the sentinel marker substring is returned unchanged. -/
theorem c4_annotator_idempotent (q : Str) :
    addSpecialComment (addSpecialComment q) = addSpecialComment q ∧
    (strContains q specialPrefixMark = true → addSpecialComment q = q) := by
  have hmarked : ∀ r : Str, strContains r specialPrefixMark = true → addSpecialComment r = r := by
    intro r h
    simp [addSpecialComment, h]
  refine ⟨?_, hmarked q⟩
  by_cases h : strContains q specialPrefixMark = true
  · rw [hmarked q h]
    exact hmarked q h
  · have h' : strContains q specialPrefixMark = false := by simpa using h
    cases hf : findClause (upperQ q) with
    | none => simp [addSpecialComment, h', hf]
    | some ij =>
      obtain ⟨i, j⟩ := ij
      have hres : addSpecialComment q =
          q.take i ++ (specialPrefixMark ++ ((q.drop i).take (j - i) ++
            (" */".toList ++ q.drop j))) := by
        simp [addSpecialComment, h', hf]
      rw [hres]
      exact hmarked _ (strContains_middle _ _ _)

/-- Closed witness for C4 at a concrete annotated query and a concrete
already-marked query. -/
theorem c4_witness :
    addSpecialComment (addSpecialComment "ALTER TABLE t SHARD_ROW_ID_BITS=4".toList) =
      addSpecialComment "ALTER TABLE t SHARD_ROW_ID_BITS=4".toList ∧
    addSpecialComment "x /*!90000 SHARD_ROW_ID_BITS=4 */ y".toList =
      "x /*!90000 SHARD_ROW_ID_BITS=4 */ y".toList :=
  ⟨(c4_annotator_idempotent "ALTER TABLE t SHARD_ROW_ID_BITS=4".toList).1,
    (c4_annotator_idempotent "x /*!90000 SHARD_ROW_ID_BITS=4 */ y".toList).2 (by decide)⟩

/-! ## Clause-pattern semantics for C5 -/

/-- A string is an instance of the RE2 pattern `SHARD_ROW_ID_BITS\s*=\s*\d+`
exactly when it decomposes as the literal keyword, a whitespace run, `=`, a
whitespace run, and a nonempty digit run. -/
def IsClauseInstance (m : Str) : Prop :=
  ∃ w1 w2 d : Str,
    m = sridPat ++ w1 ++ ['='] ++ w2 ++ d ∧
    (∀ c ∈ w1, goIsWsRe c = true) ∧ (∀ c ∈ w2, goIsWsRe c = true) ∧
    d ≠ [] ∧ (∀ c ∈ d, isDigitGo c = true)

/-- The pattern matches within `s` at offset `i` with extent `n`. -/
def ClauseAt (s : Str) (i n : Nat) : Prop :=
  i + n ≤ s.length ∧ IsClauseInstance ((s.drop i).take n)

theorem takeWhile_all_append (p : Char → Bool) (w z : Str) :
    (∀ c ∈ w, p c = true) → (w ++ z).takeWhile p = w ++ z.takeWhile p := by
  induction w with
  | nil => intro _; simp
  | cons a t ih =>
    intro hw
    have ha := hw a (by simp)
    simp [List.takeWhile_cons, ha, ih (fun c hc => hw c (by simp [hc]))]

theorem dropWhile_all_append (p : Char → Bool) (w z : Str) :
    (∀ c ∈ w, p c = true) → (w ++ z).dropWhile p = z.dropWhile p := by
  induction w with
  | nil => intro _; simp
  | cons a t ih =>
    intro hw
    have ha := hw a (by simp)
    simp [List.dropWhile_cons, ha, ih (fun c hc => hw c (by simp [hc]))]

theorem drop_length_takeWhile (p : Char → Bool) (l : Str) :
    l.drop (l.takeWhile p).length = l.dropWhile p := by
  calc l.drop (l.takeWhile p).length
      = (l.takeWhile p ++ l.dropWhile p).drop (l.takeWhile p).length := by
        rw [List.takeWhile_append_dropWhile]
    _ = l.dropWhile p := List.drop_left _ _

theorem digit_not_wsRe {c : Char} (h : isDigitGo c = true) : goIsWsRe c = false := by
  cases hws : goIsWsRe c with
  | false => rfl
  | true =>
    exfalso
    simp only [goIsWsRe, Bool.or_eq_true, beq_iff_eq] at hws
    rcases hws with (((rfl | rfl) | rfl) | rfl) | rfl <;> exact absurd h (by decide)

/-- Unfolding of `matchClauseLen` with the two
`drop (takeWhile _).length` steps rewritten to `dropWhile`. -/
theorem matchClauseLen_eq (s : Str) :
    matchClauseLen s =
      if sridPat.isPrefixOf s then
        match (s.drop 17).dropWhile goIsWsRe with
        | '=' :: r3 =>
          if ((r3.dropWhile goIsWsRe).takeWhile isDigitGo).length = 0 then none
          else some (17 + ((s.drop 17).takeWhile goIsWsRe).length + 1 +
            (r3.takeWhile goIsWsRe).length +
            ((r3.dropWhile goIsWsRe).takeWhile isDigitGo).length)
        | _ => none
      else none := by
  simp only [matchClauseLen, drop_length_takeWhile]

theorem take_clause_extent (w1 w2 d0 r5 : Str) :
    (sridPat ++ (w1 ++ ('=' :: (w2 ++ (d0 ++ r5))))).take
        (17 + w1.length + 1 + w2.length + d0.length) =
      sridPat ++ w1 ++ ['='] ++ w2 ++ d0 := by
  have hsp : sridPat.length = 17 := rfl
  rw [show 17 + w1.length + 1 + w2.length + d0.length =
      sridPat.length + (w1.length + (w2.length + d0.length + 1)) from by omega]
  rw [List.take_append, List.take_append, List.take_succ_cons, List.take_append,
    List.take_left]
  simp [List.append_assoc]


/-- Soundness of the anchored matcher. -/
theorem matchClauseLen_sound {s : Str} {n : Nat} (h : matchClauseLen s = some n) :
    IsClauseInstance (s.take n) ∧ n ≤ s.length := by
  rw [matchClauseLen_eq] at h
  split at h
  case isFalse => exact absurd h (by simp)
  case isTrue hp =>
    obtain ⟨r1, rfl⟩ := List.isPrefixOf_iff_prefix.mp hp
    have hdrop17 : (sridPat ++ r1).drop 17 = r1 := by
      have hl : sridPat.length = 17 := rfl
      rw [← hl, List.drop_left]
    rw [hdrop17] at h
    split at h
    case h_2 => exact absurd h (by simp)
    case h_1 r3 heq =>
      split at h
      case isTrue => exact absurd h (by simp)
      case isFalse hd0 =>
        have hn := (Option.some.inj h).symm
        have hr1 : r1 = r1.takeWhile goIsWsRe ++ '=' :: r3 := by
          conv_lhs => rw [← List.takeWhile_append_dropWhile (p := goIsWsRe) (l := r1), heq]
        have hr3 : r3 = r3.takeWhile goIsWsRe ++
            ((r3.dropWhile goIsWsRe).takeWhile isDigitGo ++
              (r3.dropWhile goIsWsRe).dropWhile isDigitGo) := by
          conv_rhs => rw [List.takeWhile_append_dropWhile]
          conv_rhs => rw [List.takeWhile_append_dropWhile]
        have hcanon : sridPat ++ r1 =
            sridPat ++ (r1.takeWhile goIsWsRe ++ ('=' :: (r3.takeWhile goIsWsRe ++
              ((r3.dropWhile goIsWsRe).takeWhile isDigitGo ++
                (r3.dropWhile goIsWsRe).dropWhile isDigitGo)))) := by
          conv_lhs => rw [hr1]
          conv_lhs => rw [hr3]
        constructor
        · rw [hn, hcanon, take_clause_extent]
          refine ⟨r1.takeWhile goIsWsRe, r3.takeWhile goIsWsRe,
            (r3.dropWhile goIsWsRe).takeWhile isDigitGo, rfl,
            fun c hc => List.mem_takeWhile_imp hc,
            fun c hc => List.mem_takeWhile_imp hc, ?_,
            fun c hc => List.mem_takeWhile_imp hc⟩
          intro hnil
          exact hd0 (by rw [hnil]; rfl)
        · have h1 : r1.length = (r1.takeWhile goIsWsRe).length + (1 + r3.length) := by
            conv_lhs => rw [hr1]
            simp only [List.length_append, List.length_cons]
            omega
          have h2 : r3.length = (r3.takeWhile goIsWsRe).length +
              ((r3.dropWhile goIsWsRe).takeWhile isDigitGo).length +
              ((r3.dropWhile goIsWsRe).dropWhile isDigitGo).length := by
            conv_lhs => rw [hr3]
            simp only [List.length_append, List.length_cons]
            omega
          have hsp : sridPat.length = 17 := rfl
          simp only [List.length_append, hsp, hn]
          omega

/-- Computation of the anchored matcher on an explicitly decomposed
instance: the match extends the digit run greedily past `d` into `rest`. -/
theorem matchClauseLen_decomp (w1 w2 d rest : Str)
    (hw1 : ∀ c ∈ w1, goIsWsRe c = true) (hw2 : ∀ c ∈ w2, goIsWsRe c = true)
    (hd : d ≠ []) (hdd : ∀ c ∈ d, isDigitGo c = true) :
    matchClauseLen (sridPat ++ (w1 ++ '=' :: (w2 ++ (d ++ rest)))) =
      some (17 + w1.length + 1 + w2.length +
        (d.length + (rest.takeWhile isDigitGo).length)) := by
  rw [matchClauseLen_eq]
  have hpre : sridPat.isPrefixOf (sridPat ++ (w1 ++ '=' :: (w2 ++ (d ++ rest)))) = true :=
    List.isPrefixOf_iff_prefix.mpr ⟨_, rfl⟩
  rw [if_pos hpre]
  have hdrop17 : (sridPat ++ (w1 ++ '=' :: (w2 ++ (d ++ rest)))).drop 17 =
      w1 ++ '=' :: (w2 ++ (d ++ rest)) := by
    have hl : sridPat.length = 17 := rfl
    rw [← hl, List.drop_left]
  have hwseq : goIsWsRe '=' = false := by decide
  have hdw1 : (w1 ++ '=' :: (w2 ++ (d ++ rest))).dropWhile goIsWsRe =
      '=' :: (w2 ++ (d ++ rest)) := by
    rw [dropWhile_all_append goIsWsRe w1 _ hw1]
    simp [List.dropWhile_cons, hwseq]
  have htw1 : (w1 ++ '=' :: (w2 ++ (d ++ rest))).takeWhile goIsWsRe = w1 := by
    rw [takeWhile_all_append goIsWsRe w1 _ hw1]
    simp [List.takeWhile_cons, hwseq]
  obtain ⟨dh, dt, rfl⟩ : ∃ dh dt, d = dh :: dt := by
    cases d with
    | nil => exact absurd rfl hd
    | cons dh dt => exact ⟨dh, dt, rfl⟩
  have hdh : goIsWsRe dh = false := digit_not_wsRe (hdd dh (by simp))
  have htw2 : (w2 ++ (dh :: dt ++ rest)).takeWhile goIsWsRe = w2 := by
    rw [takeWhile_all_append goIsWsRe w2 _ hw2]
    simp [List.takeWhile_cons, hdh]
  have hdw2 : (w2 ++ (dh :: dt ++ rest)).dropWhile goIsWsRe = dh :: dt ++ rest := by
    rw [dropWhile_all_append goIsWsRe w2 _ hw2]
    simp [List.dropWhile_cons, hdh]
  have htwd : (dh :: dt ++ rest).takeWhile isDigitGo = dh :: dt ++ rest.takeWhile isDigitGo := by
    have := takeWhile_all_append isDigitGo (dh :: dt) rest hdd
    simpa using this
  rw [hdrop17, hdw1]
  split
  case h_2 h => exact absurd rfl (h _)
  case h_1 r3 heq =>
    injection heq with h1 h2
    subst h2
    rw [htw1, htw2, hdw2, htwd]
    rw [if_neg (by simp)]
    simp [List.length_append]
    omega

theorem isClauseInstance_length {m : Str} (h : IsClauseInstance m) : 19 ≤ m.length := by
  obtain ⟨w1, w2, d, heq, _, _, hd, _⟩ := h
  have hlen := congrArg List.length heq
  have hsp : sridPat.length = 17 := rfl
  simp only [List.length_append, List.length_cons, List.length_nil, hsp] at hlen
  have hdl : 1 ≤ d.length := List.length_pos.mpr hd
  omega

theorem matchClauseLen_complete {s : Str} {n : Nat}
    (hn : n ≤ s.length) (hinst : IsClauseInstance (s.take n)) :
    ∃ n0, matchClauseLen s = some n0 ∧ n ≤ n0 := by
  obtain ⟨w1, w2, d, heq, hw1, hw2, hd, hdd⟩ := hinst
  have hs : s = sridPat ++ (w1 ++ '=' :: (w2 ++ (d ++ s.drop n))) := by
    conv_lhs => rw [← List.take_append_drop n s, heq]
    simp [List.append_assoc]
  have hlen : n = 17 + w1.length + 1 + w2.length + d.length := by
    have hl := congrArg List.length heq
    have hsp : sridPat.length = 17 := rfl
    simp only [List.length_take, List.length_append, List.length_cons, List.length_nil,
      hsp] at hl
    omega
  rw [hs, matchClauseLen_decomp w1 w2 d _ hw1 hw2 hd hdd]
  exact ⟨_, rfl, by omega⟩

theorem clauseAt_of_matchClauseLen {s : Str} {i n : Nat}
    (h : matchClauseLen (s.drop i) = some n) : ClauseAt s i n := by
  obtain ⟨hinst, hlen⟩ := matchClauseLen_sound h
  by_cases hi : i ≤ s.length
  · refine ⟨?_, hinst⟩
    rw [List.length_drop] at hlen
    omega
  · exfalso
    have hde : s.drop i = [] := List.drop_eq_nil_of_le (by omega)
    rw [hde] at hinst
    have := isClauseInstance_length hinst
    simp at this

theorem matchClauseLen_of_clauseAt {s : Str} {i n : Nat} (h : ClauseAt s i n) :
    ∃ n0, matchClauseLen (s.drop i) = some n0 ∧ n ≤ n0 := by
  obtain ⟨hbound, hinst⟩ := h
  refine matchClauseLen_complete ?_ hinst
  rw [List.length_drop]
  omega

theorem findClauseAux_none {s : Str} : ∀ {k : Nat}, findClauseAux k s = none →
    ∀ m, matchClauseLen (s.drop m) = none := by
  induction s with
  | nil =>
    intro k _ m
    rw [List.drop_nil]
    rfl
  | cons c t ih =>
    intro k h m
    cases hm : matchClauseLen (c :: t) with
    | some nn =>
      simp only [findClauseAux, hm] at h
      exact absurd h (by simp)
    | none =>
      simp only [findClauseAux, hm] at h
      cases m with
      | zero => simpa using hm
      | succ m' =>
        rw [List.drop_succ_cons]
        exact ih h m'

theorem findClauseAux_some {s : Str} : ∀ {k i j : Nat}, findClauseAux k s = some (i, j) →
    k ≤ i ∧ i ≤ j ∧ matchClauseLen (s.drop (i - k)) = some (j - i) ∧
      ∀ m < i - k, matchClauseLen (s.drop m) = none := by
  induction s with
  | nil => intro k i j h; exact absurd h (by simp [findClauseAux])
  | cons c t ih =>
    intro k i j h
    cases hm : matchClauseLen (c :: t) with
    | some nn =>
      simp only [findClauseAux, hm, Option.some.injEq, Prod.mk.injEq] at h
      obtain ⟨rfl, rfl⟩ := h
      refine ⟨Nat.le_refl k, by omega, ?_, ?_⟩
      · rw [Nat.sub_self, List.drop_zero, Nat.add_sub_cancel_left]
        exact hm
      · intro m hmlt
        exfalso
        omega
    | none =>
      simp only [findClauseAux, hm] at h
      obtain ⟨hk, hij, hmatch, hmin⟩ := ih h
      refine ⟨by omega, hij, ?_, ?_⟩
      · rw [show i - k = (i - (k + 1)) + 1 from by omega, List.drop_succ_cons]
        exact hmatch
      · intro m hmlt
        cases m with
        | zero => simpa using hm
        | succ m' =>
          rw [List.drop_succ_cons]
          exact hmin m' (by omega)

/-- C5: on a query free of the sentinel marker, the annotator leaves the
query unchanged when the uppercased text has no `SHARD_ROW_ID_BITS = digits`
clause; otherwise it splices the marker comment exactly around the leftmost,
greedily extended clause occurrence, keeping the clause bytes inside the
comment and every other byte of the query unchanged. -/
theorem c5_annotator_first_match (q : Str) (hmark : strContains q specialPrefixMark = false) :
    ((∀ i n, ¬ClauseAt (upperQ q) i n) → addSpecialComment q = q) ∧
    ((∃ i n, ClauseAt (upperQ q) i n) →
      ∃ i0 n0, ClauseAt (upperQ q) i0 n0 ∧
        (∀ i' n', ClauseAt (upperQ q) i' n' → i0 ≤ i') ∧
        (∀ n', ClauseAt (upperQ q) i0 n' → n' ≤ n0) ∧
        addSpecialComment q =
          q.take i0 ++ specialPrefixMark ++ (q.drop i0).take n0 ++ " */".toList ++
            q.drop (i0 + n0)) := by
  constructor
  · intro hno
    cases hf : findClause (upperQ q) with
    | none => simp [addSpecialComment, hmark, hf]
    | some ij =>
      obtain ⟨i, j⟩ := ij
      obtain ⟨hk, hij, hmatch, hmin⟩ := findClauseAux_some (show findClauseAux 0 (upperQ q) = some (i, j) from hf)
      rw [Nat.sub_zero] at hmatch
      exact absurd (clauseAt_of_matchClauseLen hmatch) (hno i (j - i))
  · rintro ⟨i, n, hat⟩
    obtain ⟨n1, hm1, hn1⟩ := matchClauseLen_of_clauseAt hat
    cases hf : findClause (upperQ q) with
    | none =>
      have hnone := findClauseAux_none (show findClauseAux 0 (upperQ q) = none from hf) i
      rw [hnone] at hm1
      exact absurd hm1 (by simp)
    | some ij =>
      obtain ⟨i0, j0⟩ := ij
      obtain ⟨_, hij, hmatch0, hmin0⟩ :=
        findClauseAux_some (show findClauseAux 0 (upperQ q) = some (i0, j0) from hf)
      rw [Nat.sub_zero] at hmatch0 hmin0
      refine ⟨i0, j0 - i0, clauseAt_of_matchClauseLen hmatch0, ?_, ?_, ?_⟩
      · intro i' n' hat'
        by_contra hlt
        push_neg at hlt
        obtain ⟨n2, hm2, _⟩ := matchClauseLen_of_clauseAt hat'
        rw [hmin0 i' hlt] at hm2
        exact absurd hm2 (by simp)
      · intro n' hat'
        obtain ⟨n2, hm2, hle⟩ := matchClauseLen_of_clauseAt hat'
        rw [hmatch0] at hm2
        have := Option.some.inj hm2
        omega
      · rw [show i0 + (j0 - i0) = j0 from by omega]
        simp [addSpecialComment, hmark, hf]

/-- Closed witness for C5 at the spec's own example query. -/
theorem c5_witness :
    strContains "ALTER TABLE t SHARD_ROW_ID_BITS=4".toList specialPrefixMark = false ∧
    (((∀ i n, ¬ClauseAt (upperQ "ALTER TABLE t SHARD_ROW_ID_BITS=4".toList) i n) →
        addSpecialComment "ALTER TABLE t SHARD_ROW_ID_BITS=4".toList =
          "ALTER TABLE t SHARD_ROW_ID_BITS=4".toList) ∧
      ((∃ i n, ClauseAt (upperQ "ALTER TABLE t SHARD_ROW_ID_BITS=4".toList) i n) →
        ∃ i0 n0, ClauseAt (upperQ "ALTER TABLE t SHARD_ROW_ID_BITS=4".toList) i0 n0 ∧
          (∀ i' n', ClauseAt (upperQ "ALTER TABLE t SHARD_ROW_ID_BITS=4".toList) i' n' →
            i0 ≤ i') ∧
          (∀ n', ClauseAt (upperQ "ALTER TABLE t SHARD_ROW_ID_BITS=4".toList) i0 n' →
            n' ≤ n0) ∧
          addSpecialComment "ALTER TABLE t SHARD_ROW_ID_BITS=4".toList =
            "ALTER TABLE t SHARD_ROW_ID_BITS=4".toList.take i0 ++ specialPrefixMark ++
              ("ALTER TABLE t SHARD_ROW_ID_BITS=4".toList.drop i0).take n0 ++
              " */".toList ++ "ALTER TABLE t SHARD_ROW_ID_BITS=4".toList.drop (i0 + n0))) :=
  ⟨by decide, c5_annotator_first_match "ALTER TABLE t SHARD_ROW_ID_BITS=4".toList (by decide)⟩

/-! ## Model of Go `net/url.Parse` and `net.SplitHostPort`

`ParseHostPortAddr` delegates URI parsing to the Go standard library; the
definitions below embed the slice of `net/url` and `net` it exercises,
translated from the stdlib sources.  Characters model bytes; non-ASCII
multi-byte sequences are outside the scope of this embedding (all behaviour
of interest is on ASCII data). -/

/-- The escaping contexts of `net/url` used on this code path. -/
inductive EncMode
  | host
  | zone
  | path
  | userPassword
  | fragment
deriving DecidableEq, BEq, Repr

/-- Model of `net/url`'s `shouldEscape c mode`. -/
def shouldEscape (c : Char) (mode : EncMode) : Bool :=
  if isAlphaGo c || isDigitGo c then false
  else if (mode == .host || mode == .zone) &&
      (c == '!' || c == '$' || c == '&' || c == '\'' || c == '(' || c == ')' ||
        c == '*' || c == '+' || c == ',' || c == ';' || c == '=' || c == ':' ||
        c == '[' || c == ']' || c == '<' || c == '>' || c == '"') then false
  else if c == '-' || c == '_' || c == '.' || c == '~' then false
  else if c == '$' || c == '&' || c == '+' || c == ',' || c == '/' || c == ':' ||
      c == ';' || c == '=' || c == '?' || c == '@' then
    match mode with
    | .path => c == '?'
    | .userPassword => c == '@' || c == '/' || c == '?' || c == ':'
    | .fragment => false
    | _ => true
  else if mode == .fragment && (c == '!' || c == '(' || c == ')' || c == '*') then false
  else true

/-- Go `ishex`. -/
def ishex (c : Char) : Bool :=
  isDigitGo c || (97 ≤ c.toNat && c.toNat ≤ 102) || (65 ≤ c.toNat && c.toNat ≤ 70)

/-- Go `unhex` (value of a hex digit). -/
def unhexVal (c : Char) : Nat :=
  if isDigitGo c then c.toNat - 48
  else if 97 ≤ c.toNat && c.toNat ≤ 102 then c.toNat - 87
  else if 65 ≤ c.toNat && c.toNat ≤ 70 then c.toNat - 55
  else 0

/-- The failure modes of the modelled slice of `net/url.Parse`. -/
inductive UrlError
  | ctlByte
  | missingScheme
  | firstSegmentColon
  | invalidPort (p : Str)
  | missingRBracketHost
  | escapeErr
  | invalidHostChar
  | invalidUserinfo
deriving DecidableEq, Repr

/-- Model of `net/url`'s `unescape`: validates (and decodes) percent
escapes, and in host/zone modes rejects forbidden ASCII characters. -/
def unescape (mode : EncMode) : Str → Except UrlError Str
  | [] => .ok []
  | c :: t =>
    if c = '%' then
      match t with
      | a :: b :: t2 =>
        if ishex a && ishex b then
          if mode == .host && decide (unhexVal a < 8) && !(a == '2' && b == '5') then
            .error .escapeErr
          else if mode == .zone && !(a == '2' && b == '5') &&
              !(unhexVal a * 16 + unhexVal b == 32) &&
              shouldEscape (Char.ofNat (unhexVal a * 16 + unhexVal b)) .host then
            .error .escapeErr
          else do
            let r ← unescape mode t2
            return Char.ofNat (unhexVal a * 16 + unhexVal b) :: r
        else .error .escapeErr
      | _ => .error .escapeErr
    else if (mode == .host || mode == .zone) && decide (c.toNat < 128) &&
        shouldEscape c mode then
      .error .invalidHostChar
    else do
      let r ← unescape mode t
      return c :: r

/-- Hex digit of Go's upper-case `"0123456789ABCDEF"` table. -/
def escapeHexDigit (n : Nat) : Char :=
  if n < 10 then Char.ofNat (48 + n) else Char.ofNat (55 + n)

/-- Model of `net/url`'s `escape` on ASCII data (Go escapes the UTF-8
bytes of non-ASCII runes; here such characters are passed through, outside
the ASCII scope of this embedding). -/
def escape (mode : EncMode) : Str → Str
  | [] => []
  | c :: t =>
    (if decide (c.toNat < 128) && shouldEscape c mode then
      ['%', escapeHexDigit (c.toNat / 16), escapeHexDigit (c.toNat % 16)]
    else [c]) ++ escape mode t

/-- Go `validOptionalPort`: empty, or `:` followed by digits only. -/
def validOptionalPort : Str → Bool
  | [] => true
  | c :: rest => c == ':' && rest.all isDigitGo

/-- Go `validUserinfo`. -/
def validUserinfo (s : Str) : Bool :=
  s.all fun r =>
    isAlphaGo r || isDigitGo r ||
    r == '-' || r == '.' || r == '_' || r == ':' || r == '~' || r == '!' || r == '$' ||
    r == '&' || r == '\'' || r == '(' || r == ')' || r == '*' || r == '+' || r == ',' ||
    r == ';' || r == '=' || r == '%' || r == '@'

/-- First index of `pat` in a string (Go `strings.Index`). -/
def indexOfSub (pat : Str) : Str → Option Nat
  | [] => if pat.isEmpty then some 0 else none
  | s@(_ :: t) =>
    if pat.isPrefixOf s then some 0
    else (indexOfSub pat t).map (· + 1)

/-- Model of `net/url`'s `parseHost`: bracketed IPv6 form (with optional
`%25` zone) or plain form, with port syntax validated and the text passed
through `unescape` in host mode. -/
def parseHost (host : Str) : Except UrlError Str :=
  if ['['].isPrefixOf host then
    match splitAtLast ']' host with
    | none => .error .missingRBracketHost
    | some (pre, colonPort) =>
      if !validOptionalPort colonPort then .error (.invalidPort colonPort)
      else
        match indexOfSub "%25".toList pre with
        | some zone => do
          let host1 ← unescape .host (pre.take zone)
          let host2 ← unescape .zone (pre.drop zone)
          let host3 ← unescape .host (']' :: colonPort)
          return host1 ++ host2 ++ host3
        | none => unescape .host host
  else
    match splitAtLast ':' host with
    | some (_, suf) =>
      if !validOptionalPort (':' :: suf) then .error (.invalidPort (':' :: suf))
      else unescape .host host
    | none => unescape .host host

/-- Model of `net/url`'s `parseAuthority`: optional userinfo before the
last `@`, then the host. -/
def parseAuthority (authority : Str) :
    Except UrlError (Option (Str × Option Str) × Str) :=
  match splitAtLast '@' authority with
  | none => do
    let h ← parseHost authority
    return (none, h)
  | some (userinfo, hostPart) => do
    let h ← parseHost hostPart
    if !validUserinfo userinfo then .error .invalidUserinfo
    else if !(strContainsChar userinfo ':') then do
      let u ← unescape .userPassword userinfo
      return (some (u, none), h)
    else do
      let r := goCut ':' userinfo
      let u ← unescape .userPassword r.1
      let p ← unescape .userPassword r.2.1
      return (some (u, some p), h)

/-- The fields of `net/url.URL` this code path reads (`opq` models the Go
field `Opaque`). -/
structure URL where
  scheme : Str := []
  opq : Str := []
  user : Option (Str × Option Str) := none
  host : Str := []
  path : Str := []
  rawPath : Str := []
  omitHost : Bool := false
  forceQuery : Bool := false
  rawQuery : Str := []
  fragment : Str := []
  rawFragment : Str := []
deriving DecidableEq, Repr

/-- Continuation of Go's `getScheme` scan past a leading letter. -/
def getSchemeCont (orig acc : Str) : Str → Except UrlError (Str × Str)
  | [] => .ok ([], orig)
  | c :: t =>
    if c == ':' then .ok (acc.reverse, t)
    else if isAlphaGo c || isDigitGo c || c == '+' || c == '-' || c == '.' then
      getSchemeCont orig (c :: acc) t
    else .ok ([], orig)

/-- Model of `net/url`'s `getScheme`. -/
def getScheme (s : Str) : Except UrlError (Str × Str) :=
  match s with
  | [] => .ok ([], [])
  | c :: t =>
    if c == ':' then .error .missingScheme
    else if isAlphaGo c then getSchemeCont s [c] t
    else .ok ([], s)

/-- ASCII lower-casing (Go lowercases the scheme; `getScheme` only ever
produces ASCII letters, digits and `+-.`). -/
def goToLower (c : Char) : Char :=
  if 65 ≤ c.toNat && c.toNat ≤ 90 then Char.ofNat (c.toNat + 32) else c

/-- Model of `URL.setPath`: decoded path plus the raw text when it differs
from the re-escaped decoding. -/
def setPathURL (p : Str) : Except UrlError (Str × Str) := do
  let path ← unescape .path p
  return (path, if escape .path path = p then [] else p)

/-- Model of `URL.setFragment`. -/
def setFragmentURL (f : Str) : Except UrlError (Str × Str) := do
  let frag ← unescape .fragment f
  return (frag, if escape .fragment frag = f then [] else f)

/-- Model of the body of `net/url`'s `parse` after scheme extraction
(`viaRequest = false`): force-query detection, query split, opaque form,
first-path-segment colon check, authority extraction, path. -/
def parseAfterScheme (scheme rest0 : Str) : Except UrlError URL := do
  let q :=
    if (rest0.getLast? == some '?') && !(strContainsChar rest0.dropLast '?') then
      (rest0.dropLast, ([] : Str), true)
    else
      let r := goCut '?' rest0
      (r.1, r.2.1, false)
  let rest1 := q.1
  let rawQuery := q.2.1
  let forceQuery := q.2.2
  if !(['/'].isPrefixOf rest1) then
    if scheme ≠ [] then
      return { scheme := scheme, opq := rest1, rawQuery := rawQuery,
               forceQuery := forceQuery }
    else if strContainsChar (goCut '/' rest1).1 ':' then
      throw UrlError.firstSegmentColon
    else do
      let pr ← setPathURL rest1
      return { scheme := scheme, path := pr.1, rawPath := pr.2, rawQuery := rawQuery,
               forceQuery := forceQuery }
  else if (scheme ≠ [] ∨ !("///".toList.isPrefixOf rest1)) ∧ "//".toList.isPrefixOf rest1 then do
    let a := rest1.drop 2
    let auth := a.takeWhile (fun c => !(c == '/'))
    let rest2 := a.dropWhile (fun c => !(c == '/'))
    let pa ← parseAuthority auth
    let pr ← setPathURL rest2
    return { scheme := scheme, user := pa.1, host := pa.2, path := pr.1, rawPath := pr.2,
             rawQuery := rawQuery, forceQuery := forceQuery }
  else do
    let pr ← setPathURL rest1
    return { scheme := scheme, omitHost := !scheme.isEmpty, path := pr.1, rawPath := pr.2,
             rawQuery := rawQuery, forceQuery := forceQuery }

/-- Model of `net/url.Parse` without the fragment part. -/
def urlParseMain (rawURL : Str) : Except UrlError URL := do
  if rawURL.any (fun c => decide (c.toNat < 32) || c.toNat == 127) then throw UrlError.ctlByte
  if rawURL = ['*'] then return { path := ['*'] }
  let sr ← getScheme rawURL
  parseAfterScheme (sr.1.map goToLower) sr.2

/-- Model of `net/url.Parse`: split the fragment at the first `#`, parse
the rest, then attach the validated fragment. -/
def urlParse (rawURL : Str) : Except UrlError URL := do
  let cutf := goCut '#' rawURL
  let u ← urlParseMain cutf.1
  if cutf.2.1 = [] then return u
  let fr ← setFragmentURL cutf.2.1
  return { u with fragment := fr.1, rawFragment := fr.2 }

/-- Go `validEncoded` for `EscapedPath`/`EscapedFragment`. -/
def validEncoded (s : Str) (mode : EncMode) : Bool :=
  s.all fun c =>
    if c == '!' || c == '$' || c == '&' || c == '\'' || c == '(' || c == ')' ||
        c == '*' || c == '+' || c == ',' || c == ';' || c == '=' || c == ':' ||
        c == '@' then true
    else if c == '[' || c == ']' then true
    else if c == '%' then true
    else !shouldEscape c mode

/-- Model of `URL.EscapedPath`. -/
def escapedPath (u : URL) : Str :=
  if u.rawPath ≠ [] ∧ validEncoded u.rawPath .path then
    match unescape .path u.rawPath with
    | .ok p => if p = u.path then u.rawPath else escape .path u.path
    | .error _ => escape .path u.path
  else escape .path u.path

/-- Model of `URL.EscapedFragment`. -/
def escapedFragment (u : URL) : Str :=
  if u.rawFragment ≠ [] ∧ validEncoded u.rawFragment .fragment then
    match unescape .fragment u.rawFragment with
    | .ok f => if f = u.fragment then u.rawFragment else escape .fragment u.fragment
    | .error _ => escape .fragment u.fragment
  else escape .fragment u.fragment

/-- Model of `Userinfo.String`. -/
def userinfoString (ui : Str × Option Str) : Str :=
  escape .userPassword ui.1 ++
    (match ui.2 with
     | some pw => ':' :: escape .userPassword pw
     | none => [])

/-- Model of `URL.String`. -/
def urlString (u : URL) : Str :=
  (if u.scheme ≠ [] then u.scheme ++ [':'] else []) ++
  (if u.opq ≠ [] then u.opq
   else
     (if u.scheme ≠ [] ∨ u.host ≠ [] ∨ u.user.isSome then
        (if u.omitHost ∧ u.host = [] ∧ u.user = none then []
         else
           (if u.host ≠ [] ∨ u.path ≠ [] ∨ u.user.isSome then ['/', '/'] else []) ++
           (match u.user with
            | some ui => userinfoString ui ++ ['@']
            | none => []) ++
           (if u.host ≠ [] then escape .host u.host else []))
      else []) ++
     (let p := escapedPath u
      (if p ≠ [] ∧ p.head? ≠ some '/' ∧ u.host ≠ [] then ['/'] else []) ++
      (if u.scheme = [] ∧ u.host = [] ∧ u.user = none ∧
          strContainsChar (goCut '/' p).1 ':' = true then ['.', '/'] else []) ++
      p)) ++
  (if u.forceQuery ∨ u.rawQuery ≠ [] then '?' :: u.rawQuery else []) ++
  (if u.fragment ≠ [] then '#' :: escapedFragment u else [])

/-- The failure modes of `net.SplitHostPort`. -/
inductive AddrError
  | missingPort
  | tooManyColons
  | missingRBracket
  | unexpectedLBracket
  | unexpectedRBracket
deriving DecidableEq, Repr

/-- Model of `net.SplitHostPort`: the port starts after the last colon; a
bracketed host must close just before it; stray colons or brackets are
rejected. -/
def splitHostPort (hostport : Str) : Except AddrError (Str × Str) :=
  match splitAtLast ':' hostport with
  | none => .error .missingPort
  | some (pre, suf) =>
    if ['['].isPrefixOf hostport then
      let r := goCut ']' hostport
      if !r.2.2 then .error .missingRBracket
      else
        match r.2.1 with
        | [] => .error .missingPort
        | ':' :: t =>
          if t = suf then
            if strContainsChar (hostport.drop 1) '[' then .error .unexpectedLBracket
            else if strContainsChar (':' :: t) ']' then .error .unexpectedRBracket
            else .ok (r.1.drop 1, suf)
          else .error .tooManyColons
        | _ :: _ => .error .missingPort
    else
      if strContainsChar pre ':' then .error .tooManyColons
      else if strContainsChar hostport '[' then .error .unexpectedLBracket
      else if strContainsChar hostport ']' then .error .unexpectedRBracket
      else .ok (pre, suf)

/-! ## The address validator `ParseHostPortAddr` (utils package) -/

/-- The error classification of `ParseHostPortAddr`: a propagated URI parse
error (`errors.Trace(err)`), or one of its three own messages, each carrying
the candidate text (post trim and scheme-prepend) it reports. -/
inductive ParseAddrError
  | urlParseErr (e : UrlError)
  | invalidScheme (s : Str)
  | invalidHostPort (s : Str)
  | unexpectedPath (s : Str)
deriving DecidableEq, Repr

def httpMarker : Str := "http".toList

def httpSlashes : Str := "http://".toList

/-- The trim and conditional scheme-prepend step applied to each candidate:
`http://` is prepended exactly when the trimmed text does not contain the
substring `http`. -/
def normalizeCand (cand : Str) : Str :=
  let str0 := trimSpace cand
  if !strContains str0 httpMarker then httpSlashes ++ str0 else str0

/-- Processing of one comma-separated candidate by `ParseHostPortAddr`
(part_000 lines 30-48): trim, prepend `http://` unless the text contains
the substring `http`, URI-parse, then check scheme, host:port shape and
absence of a path, returning the reassembled URL text. -/
def parseOneAddr (cand : Str) : Except ParseAddrError Str :=
  let str := normalizeCand cand
  match urlParse str with
  | .error e => .error (.urlParseErr e)
  | .ok u =>
    if !(u.scheme = "http".toList ∨ u.scheme = "https".toList ∨
        u.scheme = "unix".toList ∨ u.scheme = "unixs".toList) then
      .error (.invalidScheme str)
    else
      match splitHostPort u.host with
      | .error _ => .error (.invalidHostPort str)
      | .ok _ =>
        if u.path ≠ [] then .error (.unexpectedPath str)
        else .ok (urlString u)

/-- The candidate loop of `ParseHostPortAddr`: process candidates left to
right, collecting the normalized strings in order and aborting at the first
failure. -/
def parseAddrsLoop : List Str → Except ParseAddrError (List Str)
  | [] => .ok []
  | c :: t =>
    match parseOneAddr c with
    | .error e => .error e
    | .ok r =>
      match parseAddrsLoop t with
      | .error e => .error e
      | .ok rs => .ok (r :: rs)

/-- Model of `ParseHostPortAddr` (part_000 lines 26-52): split on commas and
process the candidates left to right, aborting at the first failure. -/
def ParseHostPortAddr (s : Str) : Except ParseAddrError (List Str) :=
  parseAddrsLoop (goSplitComma s)

/-! ## Character classes for the C6 normalization statement -/

/-- Letters, digits, dots and hyphens: the host alphabet of the C6
statement. -/
def hostOKChar (c : Char) : Bool :=
  isAlphaGo c || isDigitGo c || c == '.' || c == '-'

/-- Characters of a plain `host:port` (or slashed) candidate. -/
def plainURLChar (c : Char) : Bool :=
  hostOKChar c || c == ':' || c == '/'

theorem alnum_toNat {c : Char} (h : (isAlphaGo c || isDigitGo c) = true) :
    (48 ≤ c.toNat ∧ c.toNat ≤ 57) ∨ (65 ≤ c.toNat ∧ c.toNat ≤ 90) ∨
    (97 ≤ c.toNat ∧ c.toNat ≤ 122) := by
  simp only [isAlphaGo, isDigitGo, Bool.or_eq_true, Bool.and_eq_true,
    decide_eq_true_eq] at h
  omega

set_option maxHeartbeats 1600000 in
theorem plainURLChar_props {c : Char} (h : plainURLChar c = true) :
    goIsSpace c = false ∧ c ≠ ',' ∧ c ≠ '#' ∧ ¬(c.toNat < 32 ∨ c.toNat = 127) ∧
    c ≠ '?' ∧ c ≠ '[' ∧ c ≠ ']' ∧ c ≠ '@' ∧ c ≠ '%' ∧
    shouldEscape c EncMode.path = false := by
  have hc : (isAlphaGo c || isDigitGo c) = true ∨ c = '.' ∨ c = '-' ∨ c = ':' ∨ c = '/' := by
    simp only [plainURLChar, hostOKChar, Bool.or_eq_true, beq_iff_eq] at h
    rcases h with ((((ha | hd) | h1) | h2) | h3) | h4
    · exact Or.inl (by simp [ha])
    · exact Or.inl (by simp [hd])
    · exact Or.inr (Or.inl h1)
    · exact Or.inr (Or.inr (Or.inl h2))
    · exact Or.inr (Or.inr (Or.inr (Or.inl h3)))
    · exact Or.inr (Or.inr (Or.inr (Or.inr h4)))
  rcases hc with halnum | rfl | rfl | rfl | rfl
  case _ =>
    have hr := alnum_toNat halnum
    refine ⟨?_, ?_, ?_, by omega, ?_, ?_, ?_, ?_, ?_, ?_⟩
    · cases hgs : goIsSpace c with
      | false => rfl
      | true =>
        exfalso
        simp only [goIsSpace, Bool.or_eq_true, beq_iff_eq] at hgs
        rcases hgs with (((((((rfl | rfl) | rfl) | rfl) | rfl) | rfl) | rfl) | rfl) <;>
          exact absurd hr (by decide)
    · exact fun heq => by subst heq; exact absurd hr (by decide)
    · exact fun heq => by subst heq; exact absurd hr (by decide)
    · exact fun heq => by subst heq; exact absurd hr (by decide)
    · exact fun heq => by subst heq; exact absurd hr (by decide)
    · exact fun heq => by subst heq; exact absurd hr (by decide)
    · exact fun heq => by subst heq; exact absurd hr (by decide)
    · exact fun heq => by subst heq; exact absurd hr (by decide)
    · simp [shouldEscape, halnum]
  all_goals decide

set_option maxHeartbeats 800000 in
theorem hostChar_escape {c : Char} (h : (hostOKChar c || c == ':') = true) :
    shouldEscape c EncMode.host = false := by
  have hc : (isAlphaGo c || isDigitGo c) = true ∨ c = '.' ∨ c = '-' ∨ c = ':' := by
    simp only [hostOKChar, Bool.or_eq_true, beq_iff_eq] at h
    rcases h with (((ha | hd) | h1) | h2) | h3
    · exact Or.inl (by simp [ha])
    · exact Or.inl (by simp [hd])
    · exact Or.inr (Or.inl h1)
    · exact Or.inr (Or.inr (Or.inl h2))
    · exact Or.inr (Or.inr (Or.inr h3))
  rcases hc with halnum | rfl | rfl | rfl
  · simp [shouldEscape, halnum]
  all_goals decide

set_option maxHeartbeats 800000 in
theorem hostOKChar_ne {c : Char} (h : hostOKChar c = true) :
    c ≠ ':' ∧ c ≠ '/' ∧ c ≠ '[' := by
  have hc : (isAlphaGo c || isDigitGo c) = true ∨ c = '.' ∨ c = '-' := by
    simp only [hostOKChar, Bool.or_eq_true, beq_iff_eq] at h
    rcases h with ((ha | hd) | h1) | h2
    · exact Or.inl (by simp [ha])
    · exact Or.inl (by simp [hd])
    · exact Or.inr (Or.inl h1)
    · exact Or.inr (Or.inr h2)
  rcases hc with halnum | rfl | rfl
  case _ =>
    have hr := alnum_toNat halnum
    refine ⟨?_, ?_, ?_⟩ <;> exact fun heq => by subst heq; exact absurd hr (by decide)
  all_goals decide

/-! ## Evaluation lemmas for the validator pipeline on clean candidates -/

theorem dropWhile_none (p : Char → Bool) (s : Str) (h : ∀ c ∈ s, p c = false) :
    s.dropWhile p = s := by
  cases s with
  | nil => rfl
  | cons a t => simp [List.dropWhile_cons, h a (by simp)]

theorem takeWhile_all (p : Char → Bool) (s : Str) (h : ∀ c ∈ s, p c = true) :
    s.takeWhile p = s := by
  induction s with
  | nil => rfl
  | cons a t ih =>
    simp [List.takeWhile_cons, h a (by simp), ih (fun c hc => h c (by simp [hc]))]

theorem dropWhile_all (p : Char → Bool) (s : Str) (h : ∀ c ∈ s, p c = true) :
    s.dropWhile p = [] := by
  induction s with
  | nil => rfl
  | cons a t ih =>
    simp [List.dropWhile_cons, h a (by simp), ih (fun c hc => h c (by simp [hc]))]

theorem trimSpace_id {s : Str} (h : ∀ c ∈ s, goIsSpace c = false) : trimSpace s = s := by
  unfold trimSpace
  rw [dropWhile_none _ _ h, dropWhile_none _ _ (fun c hc => h c (List.mem_reverse.mp hc)),
    List.reverse_reverse]

theorem goCut_none {x : Char} {s : Str} (h : ∀ c ∈ s, c ≠ x) : goCut x s = (s, [], false) := by
  induction s with
  | nil => rfl
  | cons a t ih =>
    simp only [goCut, if_neg (h a (by simp)), ih (fun c hc => h c (by simp [hc]))]

theorem splitAtLast_none {x : Char} {s : Str} (h : ∀ c ∈ s, c ≠ x) :
    splitAtLast x s = none := by
  induction s with
  | nil => rfl
  | cons a t ih =>
    simp only [splitAtLast, ih (fun c hc => h c (by simp [hc])), if_neg (h a (by simp))]

theorem splitAtLast_mid {x : Char} (a b : Str) (ha : ∀ c ∈ a, c ≠ x) (hb : ∀ c ∈ b, c ≠ x) :
    splitAtLast x (a ++ x :: b) = some (a, b) := by
  induction a with
  | nil =>
    simp [splitAtLast, splitAtLast_none hb]
  | cons c t ih =>
    have iht := ih (fun d hd => ha d (by simp [hd]))
    simp only [List.cons_append, splitAtLast, List.append_eq, iht]

theorem strContainsChar_none {x : Char} {s : Str} (h : ∀ c ∈ s, c ≠ x) :
    strContainsChar s x = false := by
  simp only [strContainsChar, List.any_eq_false]
  intro c hc
  simpa using h c hc

theorem getLastQm_false {s : Str} (h : ∀ c ∈ s, c ≠ '?') :
    (s.getLast? == some '?') = false := by
  cases hgl : s.getLast? with
  | none => rfl
  | some x =>
    have hx : x ∈ s := by
      have h1 : x ∈ s.getLast? := by simp [hgl]
      obtain ⟨hne, heq⟩ := List.mem_getLast?_eq_getLast h1
      rw [heq]
      exact List.getLast_mem hne
    simpa using h x hx

theorem unescape_id (mode : EncMode) (s : Str)
    (h : ∀ c ∈ s, c ≠ '%' ∧
      ((mode == EncMode.host || mode == EncMode.zone) && decide (c.toNat < 128) &&
        shouldEscape c mode) = false) :
    unescape mode s = .ok s := by
  induction s with
  | nil => rfl
  | cons c t ih =>
    obtain ⟨hpc, hcond⟩ := h c (by simp)
    unfold unescape
    rw [if_neg hpc]
    simp only [hcond, Bool.false_eq_true, if_false]
    rw [ih (fun d hd => h d (by simp [hd]))]
    rfl

theorem escape_id (mode : EncMode) (s : Str) (h : ∀ c ∈ s, shouldEscape c mode = false) :
    escape mode s = s := by
  induction s with
  | nil => rfl
  | cons c t ih =>
    have hc := h c (by simp)
    have hcond : (decide (c.toNat < 128) && shouldEscape c mode) = false := by
      rw [hc, Bool.and_false]
    simp only [escape, hcond, Bool.false_eq_true, if_false,
      ih (fun d hd => h d (by simp [hd])), List.singleton_append]

theorem hostport_plain {h p : Str} (hh : h.all hostOKChar = true) (hp : p.all isDigitGo = true) :
    ∀ c ∈ h ++ ':' :: p, plainURLChar c = true := by
  intro c hc
  rcases List.mem_append.mp hc with hch | hcp
  · have := (List.all_eq_true.mp hh) c hch
    simp [plainURLChar, this]
  · rcases List.mem_cons.mp hcp with rfl | hcp'
    · decide
    · have := (List.all_eq_true.mp hp) c hcp'
      simp [plainURLChar, hostOKChar, this]

theorem hostport_not_bracket {h p : Str} (hh : h.all hostOKChar = true) :
    (['['].isPrefixOf (h ++ ':' :: p)) = false := by
  cases h with
  | nil => rfl
  | cons c0 h' =>
    have hne := (hostOKChar_ne ((List.all_eq_true.mp hh) c0 (by simp))).2.2
    simp only [List.cons_append, List.isPrefixOf, Bool.and_eq_false_imp]
    intro hbeq
    exact absurd (beq_iff_eq.mp hbeq).symm hne

theorem unescape_host_hostport {h p : Str} (hh : h.all hostOKChar = true)
    (hp : p.all isDigitGo = true) :
    unescape EncMode.host (h ++ ':' :: p) = .ok (h ++ ':' :: p) := by
  apply unescape_id
  intro c hc
  have hplain := hostport_plain hh hp c hc
  have hesc : shouldEscape c EncMode.host = false := by
    apply hostChar_escape
    rcases List.mem_append.mp hc with hch | hcp
    · simp [(List.all_eq_true.mp hh) c hch]
    · rcases List.mem_cons.mp hcp with rfl | hcp'
      · decide
      · simp [hostOKChar, (List.all_eq_true.mp hp) c hcp']
  exact ⟨(plainURLChar_props hplain).2.2.2.2.2.2.2.2.1, by rw [hesc, Bool.and_false]⟩

theorem parseHost_hostport {h p : Str} (hh : h.all hostOKChar = true)
    (hp : p.all isDigitGo = true) :
    parseHost (h ++ ':' :: p) = .ok (h ++ ':' :: p) := by
  have hcolh : ∀ c ∈ h, c ≠ ':' := fun c hc =>
    (hostOKChar_ne ((List.all_eq_true.mp hh) c hc)).1
  have hcolp : ∀ c ∈ p, c ≠ ':' := fun c hc =>
    (hostOKChar_ne (by simp [hostOKChar, (List.all_eq_true.mp hp) c hc])).1
  have hvp : validOptionalPort (':' :: p) = true := by simp [validOptionalPort, hp]
  simp only [parseHost, hostport_not_bracket hh, Bool.false_eq_true, if_false,
    splitAtLast_mid h p hcolh hcolp, hvp, Bool.not_true, unescape_host_hostport hh hp]

theorem splitHostPort_hostport {h p : Str} (hh : h.all hostOKChar = true)
    (hp : p.all isDigitGo = true) :
    splitHostPort (h ++ ':' :: p) = .ok (h, p) := by
  have hplain := hostport_plain hh hp
  have hcolh : ∀ c ∈ h, c ≠ ':' := fun c hc =>
    (hostOKChar_ne ((List.all_eq_true.mp hh) c hc)).1
  have hcolp : ∀ c ∈ p, c ≠ ':' := fun c hc =>
    (hostOKChar_ne (by simp [hostOKChar, (List.all_eq_true.mp hp) c hc])).1
  have hlb : strContainsChar (h ++ ':' :: p) '[' = false :=
    strContainsChar_none (fun c hc => (plainURLChar_props (hplain c hc)).2.2.2.2.2.1)
  have hrb : strContainsChar (h ++ ':' :: p) ']' = false :=
    strContainsChar_none (fun c hc => (plainURLChar_props (hplain c hc)).2.2.2.2.2.2.1)
  have hch : strContainsChar h ':' = false := strContainsChar_none hcolh
  simp only [splitHostPort, splitAtLast_mid h p hcolh hcolp, hostport_not_bracket hh,
    Bool.false_eq_true, if_false, hch, hlb, hrb]

theorem parseAuthority_hostport {h p : Str} (hh : h.all hostOKChar = true)
    (hp : p.all isDigitGo = true) :
    parseAuthority (h ++ ':' :: p) = .ok (none, h ++ ':' :: p) := by
  have hplain := hostport_plain hh hp
  have hat : splitAtLast '@' (h ++ ':' :: p) = none :=
    splitAtLast_none (fun c hc => (plainURLChar_props (hplain c hc)).2.2.2.2.2.2.2.1)
  simp only [parseAuthority, hat, parseHost_hostport hh hp]
  rfl

theorem parseAfterScheme_hostport (scheme : Str) (hs : scheme ≠ []) {h p : Str}
    (hh : h.all hostOKChar = true) (hp : p.all isDigitGo = true) :
    parseAfterScheme scheme ('/' :: '/' :: (h ++ ':' :: p)) =
      .ok { scheme := scheme, host := h ++ ':' :: p } := by
  have hplain := hostport_plain hh hp
  have hqm : ∀ c ∈ ('/' :: '/' :: (h ++ ':' :: p)), c ≠ '?' := by
    intro c hc
    rcases List.mem_cons.mp hc with rfl | hc1
    · decide
    rcases List.mem_cons.mp hc1 with rfl | hc2
    · decide
    · exact (plainURLChar_props (hplain c hc2)).2.2.2.2.1
  have hcond : ((('/' :: '/' :: (h ++ ':' :: p)).getLast? == some '?') &&
      !strContainsChar ('/' :: '/' :: (h ++ ':' :: p)).dropLast '?') = false := by
    rw [getLastQm_false hqm, Bool.false_and]
  have hcut : goCut '?' ('/' :: '/' :: (h ++ ':' :: p)) =
      ('/' :: '/' :: (h ++ ':' :: p), [], false) := goCut_none hqm
  have hslash : ∀ c ∈ h ++ ':' :: p, (!(c == '/')) = true := by
    intro c hc
    rcases List.mem_append.mp hc with hch | hcp
    · simpa using (hostOKChar_ne ((List.all_eq_true.mp hh) c hch)).2.1
    · rcases List.mem_cons.mp hcp with rfl | hcp'
      · decide
      · simpa using
          (hostOKChar_ne (by simp [hostOKChar, (List.all_eq_true.mp hp) c hcp'])).2.1
  have htw : (h ++ ':' :: p).takeWhile (fun c => !(c == '/')) = h ++ ':' :: p :=
    takeWhile_all _ _ hslash
  have hdw : (h ++ ':' :: p).dropWhile (fun c => !(c == '/')) = [] :=
    dropWhile_all _ _ hslash
  unfold parseAfterScheme
  simp only [hcond, Bool.false_eq_true, if_false, hcut]
  simp only [List.isPrefixOf, Bool.and_true, beq_self_eq_true, Bool.not_true,
    Bool.false_eq_true, if_false]
  rw [if_pos ⟨Or.inl hs, by simp [List.isPrefixOf]⟩]
  simp only [List.drop_succ_cons, List.drop_zero, htw, hdw,
    parseAuthority_hostport hh hp]
  rfl

theorem hostport_no_ctl {h p : Str} (hh : h.all hostOKChar = true)
    (hp : p.all isDigitGo = true) :
    ∀ c ∈ h ++ ':' :: p, (decide (c.toNat < 32) || c.toNat == 127) = false := by
  intro c hc
  have := (plainURLChar_props (hostport_plain hh hp c hc)).2.2.2.1
  simp only [Bool.or_eq_false_iff, decide_eq_false_iff_not, beq_eq_false_iff_ne]
  omega

theorem exceptBind_ok {ε α β : Type} (x : α) (f : α → Except ε β) :
    (Except.ok x >>= f) = f x := rfl

theorem exceptBind_unit {ε β : Type} (f : PUnit → Except ε β) :
    ((pure PUnit.unit : Except ε PUnit) >>= f) = f PUnit.unit := rfl

theorem getScheme_http (r : Str) :
    getScheme ('h' :: 't' :: 't' :: 'p' :: ':' :: r) = .ok ("http".toList, r) := rfl

theorem getScheme_https (r : Str) :
    getScheme ('h' :: 't' :: 't' :: 'p' :: 's' :: ':' :: r) = .ok ("https".toList, r) := rfl

theorem urlParse_http_hostport {h p : Str} (hh : h.all hostOKChar = true)
    (hp : p.all isDigitGo = true) :
    urlParse (httpSlashes ++ (h ++ ':' :: p)) =
      .ok { scheme := "http".toList, host := h ++ ':' :: p } := by
  have hplain := hostport_plain hh hp
  have hnohash : ∀ c ∈ httpSlashes ++ (h ++ ':' :: p), c ≠ '#' := by
    intro c hc
    rcases List.mem_append.mp hc with hc1 | hc2
    · have hfix : ∀ d ∈ httpSlashes, d ≠ '#' := by decide
      exact hfix c hc1
    · exact (plainURLChar_props (hplain c hc2)).2.2.1
  have hcut : goCut '#' (httpSlashes ++ (h ++ ':' :: p)) =
      (httpSlashes ++ (h ++ ':' :: p), [], false) := goCut_none hnohash
  have hctl : (httpSlashes ++ (h ++ ':' :: p)).any
      (fun c => decide (c.toNat < 32) || c.toNat == 127) = false := by
    rw [List.any_append]
    have h1 : httpSlashes.any (fun c => decide (c.toNat < 32) || c.toNat == 127) = false := by
      decide
    have h2 : (h ++ ':' :: p).any (fun c => decide (c.toNat < 32) || c.toNat == 127) = false := by
      rw [List.any_eq_false]
      intro x hx
      simp [hostport_no_ctl hh hp x hx]
    rw [h1, h2]
    rfl
  have hstar : ¬(httpSlashes ++ (h ++ ':' :: p) = ['*']) := by
    intro heq
    have hlen := congrArg List.length heq
    have h7 : httpSlashes.length = 7 := rfl
    rw [List.length_append, h7] at hlen
    simp only [List.length_append, List.length_cons, List.length_nil] at hlen
    omega
  have hgs : getScheme (httpSlashes ++ (h ++ ':' :: p)) =
      .ok ("http".toList, '/' :: '/' :: (h ++ ':' :: p)) := rfl
  have hlow : ("http".toList).map goToLower = "http".toList := rfl
  simp only [urlParse, urlParseMain, hcut, hctl, Bool.false_eq_true, if_false, hstar,
    hgs, exceptBind_ok, exceptBind_unit, hlow,
    parseAfterScheme_hostport "http".toList (by decide) hh hp]
  simp
  rfl

def httpsSlashes : Str := "https://".toList

theorem urlParse_https_hostport {h p : Str} (hh : h.all hostOKChar = true)
    (hp : p.all isDigitGo = true) :
    urlParse (httpsSlashes ++ (h ++ ':' :: p)) =
      .ok { scheme := "https".toList, host := h ++ ':' :: p } := by
  have hplain := hostport_plain hh hp
  have hnohash : ∀ c ∈ httpsSlashes ++ (h ++ ':' :: p), c ≠ '#' := by
    intro c hc
    rcases List.mem_append.mp hc with hc1 | hc2
    · have hfix : ∀ d ∈ httpsSlashes, d ≠ '#' := by decide
      exact hfix c hc1
    · exact (plainURLChar_props (hplain c hc2)).2.2.1
  have hcut : goCut '#' (httpsSlashes ++ (h ++ ':' :: p)) =
      (httpsSlashes ++ (h ++ ':' :: p), [], false) := goCut_none hnohash
  have hctl : (httpsSlashes ++ (h ++ ':' :: p)).any
      (fun c => decide (c.toNat < 32) || c.toNat == 127) = false := by
    rw [List.any_append]
    have h1 : httpsSlashes.any (fun c => decide (c.toNat < 32) || c.toNat == 127) = false := by
      decide
    have h2 : (h ++ ':' :: p).any (fun c => decide (c.toNat < 32) || c.toNat == 127) = false := by
      rw [List.any_eq_false]
      intro x hx
      simp [hostport_no_ctl hh hp x hx]
    rw [h1, h2]
    rfl
  have hstar : ¬(httpsSlashes ++ (h ++ ':' :: p) = ['*']) := by
    intro heq
    have hlen := congrArg List.length heq
    have h8 : httpsSlashes.length = 8 := rfl
    rw [List.length_append, h8] at hlen
    simp only [List.length_append, List.length_cons, List.length_nil] at hlen
    omega
  have hgs : getScheme (httpsSlashes ++ (h ++ ':' :: p)) =
      .ok ("https".toList, '/' :: '/' :: (h ++ ':' :: p)) := rfl
  have hlow : ("https".toList).map goToLower = "https".toList := rfl
  simp only [urlParse, urlParseMain, hcut, hctl, Bool.false_eq_true, if_false, hstar,
    hgs, exceptBind_ok, exceptBind_unit, hlow,
    parseAfterScheme_hostport "https".toList (by decide) hh hp]
  simp
  rfl

theorem escape_host_hostport {h p : Str} (hh : h.all hostOKChar = true)
    (hp : p.all isDigitGo = true) :
    escape EncMode.host (h ++ ':' :: p) = h ++ ':' :: p := by
  apply escape_id
  intro c hc
  apply hostChar_escape
  rcases List.mem_append.mp hc with hch | hcp
  · simp [(List.all_eq_true.mp hh) c hch]
  · rcases List.mem_cons.mp hcp with rfl | hcp'
    · decide
    · simp [hostOKChar, (List.all_eq_true.mp hp) c hcp']

theorem urlString_schemeHost (scheme cs : Str) (hs : scheme ≠ []) (hcs : cs ≠ [])
    (hesc : escape EncMode.host cs = cs) :
    urlString { scheme := scheme, host := cs } = scheme ++ ':' :: '/' :: '/' :: cs := by
  have hep : escapedPath { scheme := scheme, host := cs : URL } = [] := rfl
  unfold urlString
  simp only [hep]
  simp [hs, hcs, hesc]

theorem parseOneAddr_eval (cand : Str) : parseOneAddr cand =
    match urlParse (normalizeCand cand) with
    | .error e => .error (.urlParseErr e)
    | .ok u =>
      if !(u.scheme = "http".toList ∨ u.scheme = "https".toList ∨
          u.scheme = "unix".toList ∨ u.scheme = "unixs".toList) then
        .error (.invalidScheme (normalizeCand cand))
      else
        match splitHostPort u.host with
        | .error _ => .error (.invalidHostPort (normalizeCand cand))
        | .ok _ =>
          if u.path ≠ [] then .error (.unexpectedPath (normalizeCand cand))
          else .ok (urlString u) := rfl

theorem parseOneAddr_plain {h p : Str} (hh : h.all hostOKChar = true)
    (hp : p.all isDigitGo = true)
    (hno : strContains (h ++ ':' :: p) httpMarker = false) :
    parseOneAddr (h ++ ':' :: p) = .ok (httpSlashes ++ (h ++ ':' :: p)) := by
  have hplain := hostport_plain hh hp
  have htrim : trimSpace (h ++ ':' :: p) = h ++ ':' :: p :=
    trimSpace_id (fun c hc => (plainURLChar_props (hplain c hc)).1)
  have hnorm : normalizeCand (h ++ ':' :: p) = httpSlashes ++ (h ++ ':' :: p) := by
    simp [normalizeCand, htrim, hno]
  have hcsne : h ++ ':' :: p ≠ [] := by simp
  rw [parseOneAddr_eval, hnorm, urlParse_http_hostport hh hp]
  simp only [splitHostPort_hostport hh hp]
  rw [urlString_schemeHost "http".toList (h ++ ':' :: p) (by decide) hcsne
    (escape_host_hostport hh hp)]
  simp
  rfl

theorem parseOneAddr_http {h p : Str} (hh : h.all hostOKChar = true)
    (hp : p.all isDigitGo = true) :
    parseOneAddr (httpSlashes ++ (h ++ ':' :: p)) = .ok (httpSlashes ++ (h ++ ':' :: p)) := by
  have hplain := hostport_plain hh hp
  have htrim : trimSpace (httpSlashes ++ (h ++ ':' :: p)) = httpSlashes ++ (h ++ ':' :: p) := by
    apply trimSpace_id
    intro c hc
    rcases List.mem_append.mp hc with hc1 | hc2
    · have hfix : ∀ d ∈ httpSlashes, goIsSpace d = false := by decide
      exact hfix c hc1
    · exact (plainURLChar_props (hplain c hc2)).1
  have hhas : strContains (httpSlashes ++ (h ++ ':' :: p)) httpMarker = true :=
    strContains_of_isPrefixOf rfl
  have hnorm : normalizeCand (httpSlashes ++ (h ++ ':' :: p)) =
      httpSlashes ++ (h ++ ':' :: p) := by
    simp [normalizeCand, htrim, hhas]
  have hcsne : h ++ ':' :: p ≠ [] := by simp
  rw [parseOneAddr_eval, hnorm, urlParse_http_hostport hh hp]
  simp only [splitHostPort_hostport hh hp]
  rw [urlString_schemeHost "http".toList (h ++ ':' :: p) (by decide) hcsne
    (escape_host_hostport hh hp)]
  simp
  rfl

theorem parseOneAddr_https {h p : Str} (hh : h.all hostOKChar = true)
    (hp : p.all isDigitGo = true) :
    parseOneAddr (httpsSlashes ++ (h ++ ':' :: p)) =
      .ok (httpsSlashes ++ (h ++ ':' :: p)) := by
  have hplain := hostport_plain hh hp
  have htrim : trimSpace (httpsSlashes ++ (h ++ ':' :: p)) =
      httpsSlashes ++ (h ++ ':' :: p) := by
    apply trimSpace_id
    intro c hc
    rcases List.mem_append.mp hc with hc1 | hc2
    · have hfix : ∀ d ∈ httpsSlashes, goIsSpace d = false := by decide
      exact hfix c hc1
    · exact (plainURLChar_props (hplain c hc2)).1
  have hhas : strContains (httpsSlashes ++ (h ++ ':' :: p)) httpMarker = true :=
    strContains_of_isPrefixOf rfl
  have hnorm : normalizeCand (httpsSlashes ++ (h ++ ':' :: p)) =
      httpsSlashes ++ (h ++ ':' :: p) := by
    simp [normalizeCand, htrim, hhas]
  have hcsne : h ++ ':' :: p ≠ [] := by simp
  rw [parseOneAddr_eval, hnorm, urlParse_https_hostport hh hp]
  simp only [splitHostPort_hostport hh hp]
  rw [urlString_schemeHost "https".toList (h ++ ':' :: p) (by decide) hcsne
    (escape_host_hostport hh hp)]
  simp
  rfl

def unixSlashes : Str := "unix://".toList

theorem setPathURL_slashes {h p : Str} (hh : h.all hostOKChar = true)
    (hp : p.all isDigitGo = true) :
    setPathURL ('/' :: '/' :: (h ++ ':' :: p)) = .ok ('/' :: '/' :: (h ++ ':' :: p), []) := by
  have hplain := hostport_plain hh hp
  have hun : unescape EncMode.path ('/' :: '/' :: (h ++ ':' :: p)) =
      .ok ('/' :: '/' :: (h ++ ':' :: p)) := by
    apply unescape_id
    intro c hc
    refine ⟨?_, by rfl⟩
    rcases List.mem_cons.mp hc with rfl | hc1
    · decide
    rcases List.mem_cons.mp hc1 with rfl | hc2
    · decide
    · exact (plainURLChar_props (hplain c hc2)).2.2.2.2.2.2.2.2.1
  have hesc : escape EncMode.path ('/' :: '/' :: (h ++ ':' :: p)) =
      '/' :: '/' :: (h ++ ':' :: p) := by
    apply escape_id
    intro c hc
    rcases List.mem_cons.mp hc with rfl | hc1
    · decide
    rcases List.mem_cons.mp hc1 with rfl | hc2
    · decide
    · exact (plainURLChar_props (hplain c hc2)).2.2.2.2.2.2.2.2.2
  simp [setPathURL, hun, hesc]

theorem parseAfterScheme_unix {h p : Str} (hh : h.all hostOKChar = true)
    (hp : p.all isDigitGo = true) :
    parseAfterScheme "http".toList ('/' :: '/' :: (unixSlashes ++ (h ++ ':' :: p))) =
      .ok { scheme := "http".toList, host := "unix:".toList,
            path := '/' :: '/' :: (h ++ ':' :: p) } := by
  have hplain := hostport_plain hh hp
  have hqm : ∀ c ∈ ('/' :: '/' :: (unixSlashes ++ (h ++ ':' :: p))), c ≠ '?' := by
    intro c hc
    rcases List.mem_cons.mp hc with rfl | hc1
    · decide
    rcases List.mem_cons.mp hc1 with rfl | hc2
    · decide
    rcases List.mem_append.mp hc2 with hc3 | hc4
    · have hfix : ∀ d ∈ unixSlashes, d ≠ '?' := by decide
      exact hfix c hc3
    · exact (plainURLChar_props (hplain c hc4)).2.2.2.2.1
  have hcond : ((('/' :: '/' :: (unixSlashes ++ (h ++ ':' :: p))).getLast? == some '?') &&
      !strContainsChar ('/' :: '/' :: (unixSlashes ++ (h ++ ':' :: p))).dropLast '?') =
        false := by
    rw [getLastQm_false hqm, Bool.false_and]
  have hcut : goCut '?' ('/' :: '/' :: (unixSlashes ++ (h ++ ':' :: p))) =
      ('/' :: '/' :: (unixSlashes ++ (h ++ ':' :: p)), [], false) := goCut_none hqm
  unfold parseAfterScheme
  simp only [hcond, Bool.false_eq_true, if_false, hcut]
  simp only [List.isPrefixOf, Bool.and_true, beq_self_eq_true, Bool.not_true,
    Bool.false_eq_true, if_false]
  rw [if_pos ⟨Or.inl (by decide), by simp [List.isPrefixOf]⟩]
  have htw : (unixSlashes ++ (h ++ ':' :: p)).takeWhile (fun c => !(c == '/')) =
      "unix:".toList := rfl
  have hdw : (unixSlashes ++ (h ++ ':' :: p)).dropWhile (fun c => !(c == '/')) =
      '/' :: '/' :: (h ++ ':' :: p) := rfl
  have hauth : parseAuthority "unix:".toList = .ok (none, "unix:".toList) := rfl
  simp only [List.drop_succ_cons, List.drop_zero, htw, hdw, hauth,
    setPathURL_slashes hh hp, exceptBind_ok]
  rfl

theorem urlParse_unix_hostport {h p : Str} (hh : h.all hostOKChar = true)
    (hp : p.all isDigitGo = true) :
    urlParse (httpSlashes ++ (unixSlashes ++ (h ++ ':' :: p))) =
      .ok { scheme := "http".toList, host := "unix:".toList,
            path := '/' :: '/' :: (h ++ ':' :: p) } := by
  have hplain := hostport_plain hh hp
  have hnohash : ∀ c ∈ httpSlashes ++ (unixSlashes ++ (h ++ ':' :: p)), c ≠ '#' := by
    intro c hc
    rcases List.mem_append.mp hc with hc1 | hc2
    · have hfix : ∀ d ∈ httpSlashes, d ≠ '#' := by decide
      exact hfix c hc1
    rcases List.mem_append.mp hc2 with hc3 | hc4
    · have hfix : ∀ d ∈ unixSlashes, d ≠ '#' := by decide
      exact hfix c hc3
    · exact (plainURLChar_props (hplain c hc4)).2.2.1
  have hcut : goCut '#' (httpSlashes ++ (unixSlashes ++ (h ++ ':' :: p))) =
      (httpSlashes ++ (unixSlashes ++ (h ++ ':' :: p)), [], false) := goCut_none hnohash
  have hctl : (httpSlashes ++ (unixSlashes ++ (h ++ ':' :: p))).any
      (fun c => decide (c.toNat < 32) || c.toNat == 127) = false := by
    rw [List.any_append, List.any_append]
    have h1 : httpSlashes.any (fun c => decide (c.toNat < 32) || c.toNat == 127) = false := by
      decide
    have h1' : unixSlashes.any (fun c => decide (c.toNat < 32) || c.toNat == 127) = false := by
      decide
    have h2 : (h ++ ':' :: p).any (fun c => decide (c.toNat < 32) || c.toNat == 127) = false := by
      rw [List.any_eq_false]
      intro x hx
      simp [hostport_no_ctl hh hp x hx]
    rw [h1, h1', h2]
    rfl
  have hstar : ¬(httpSlashes ++ (unixSlashes ++ (h ++ ':' :: p)) = ['*']) := by
    intro heq
    have hlen := congrArg List.length heq
    have h7 : httpSlashes.length = 7 := rfl
    rw [List.length_append, h7] at hlen
    simp only [List.length_append, List.length_cons, List.length_nil] at hlen
    omega
  have hgs : getScheme (httpSlashes ++ (unixSlashes ++ (h ++ ':' :: p))) =
      .ok ("http".toList, '/' :: '/' :: (unixSlashes ++ (h ++ ':' :: p))) := rfl
  have hlow : ("http".toList).map goToLower = "http".toList := rfl
  simp only [urlParse, urlParseMain, hcut, hctl, Bool.false_eq_true, if_false, hstar,
    hgs, exceptBind_ok, exceptBind_unit, hlow, parseAfterScheme_unix hh hp]
  simp
  rfl

theorem parseOneAddr_unix {h p : Str} (hh : h.all hostOKChar = true)
    (hp : p.all isDigitGo = true)
    (hno : strContains (h ++ ':' :: p) httpMarker = false) :
    parseOneAddr (unixSlashes ++ (h ++ ':' :: p)) =
      .error (.unexpectedPath (httpSlashes ++ (unixSlashes ++ (h ++ ':' :: p)))) := by
  have hplain := hostport_plain hh hp
  have htrim : trimSpace (unixSlashes ++ (h ++ ':' :: p)) =
      unixSlashes ++ (h ++ ':' :: p) := by
    apply trimSpace_id
    intro c hc
    rcases List.mem_append.mp hc with hc1 | hc2
    · have hfix : ∀ d ∈ unixSlashes, goIsSpace d = false := by decide
      exact hfix c hc1
    · exact (plainURLChar_props (hplain c hc2)).1
  have hno' : strContains (unixSlashes ++ (h ++ ':' :: p)) httpMarker = false := hno
  have hnorm : normalizeCand (unixSlashes ++ (h ++ ':' :: p)) =
      httpSlashes ++ (unixSlashes ++ (h ++ ':' :: p)) := by
    simp [normalizeCand, htrim, hno']
  have hshp : splitHostPort "unix:".toList = .ok ("unix".toList, []) := rfl
  rw [parseOneAddr_eval, hnorm, urlParse_unix_hostport hh hp]
  simp only [hshp]
  simp

theorem goSplitComma_single {s : Str} (h : ∀ c ∈ s, c ≠ ',') : goSplitComma s = [s] := by
  induction s with
  | nil => rfl
  | cons c t ih =>
    simp only [goSplitComma, if_neg (h c (by simp)), ih (fun d hd => h d (by simp [hd]))]

theorem parseHostPortAddr_single {s : Str} (h : ∀ c ∈ s, c ≠ ',') :
    ParseHostPortAddr s =
      match parseOneAddr s with
      | .error e => .error e
      | .ok r => .ok [r] := by
  unfold ParseHostPortAddr
  rw [goSplitComma_single h]
  cases hone : parseOneAddr s <;> simp [parseAddrsLoop, hone]

theorem hostport_ne_comma {h p : Str} (hh : h.all hostOKChar = true)
    (hp : p.all isDigitGo = true) : ∀ c ∈ h ++ ':' :: p, c ≠ ',' :=
  fun c hc => (plainURLChar_props (hostport_plain hh hp c hc)).2.1

/-- C6 counterexample: a `unix`-scheme candidate does not contain the
literal substring `http`, so `http://` is prepended and the candidate is
rejected with an unexpected-path error instead of being normalized. -/
theorem c6_counterexample :
    ParseHostPortAddr "unix://1.2.3.4:80".toList =
      .error (.unexpectedPath "http://unix://1.2.3.4:80".toList) := rfl

/-- C6 (amended): candidates are trimmed and `http://` is prepended exactly
when the trimmed text lacks the literal substring `http`; a plain
`host:port` candidate (letters/digits/dots/hyphens host, digit port, no
`http` inside) yields `http://host:port`; candidates already carrying an
`http` or `https` scheme are returned unchanged; a `unix`-scheme candidate
is prepended as well and rejected with an unexpected-path error. -/
theorem c6_candidate_normalization (h p : Str) (hh : h.all hostOKChar = true)
    (hp : p.all isDigitGo = true) :
    (strContains (h ++ ':' :: p) httpMarker = false →
      ParseHostPortAddr (h ++ ':' :: p) = .ok [httpSlashes ++ (h ++ ':' :: p)]) ∧
    ParseHostPortAddr (httpSlashes ++ (h ++ ':' :: p)) =
      .ok [httpSlashes ++ (h ++ ':' :: p)] ∧
    ParseHostPortAddr (httpsSlashes ++ (h ++ ':' :: p)) =
      .ok [httpsSlashes ++ (h ++ ':' :: p)] ∧
    (strContains (h ++ ':' :: p) httpMarker = false →
      ParseHostPortAddr (unixSlashes ++ (h ++ ':' :: p)) =
        .error (.unexpectedPath (httpSlashes ++ (unixSlashes ++ (h ++ ':' :: p))))) := by
  have hnc := hostport_ne_comma hh hp
  have hfix7 : ∀ d ∈ httpSlashes, d ≠ ',' := by decide
  have hfix8 : ∀ d ∈ httpsSlashes, d ≠ ',' := by decide
  have hfixu : ∀ d ∈ unixSlashes, d ≠ ',' := by decide
  refine ⟨?_, ?_, ?_, ?_⟩
  · intro hno
    rw [parseHostPortAddr_single hnc, parseOneAddr_plain hh hp hno]
  · rw [parseHostPortAddr_single (fun c hc => by
      rcases List.mem_append.mp hc with h1 | h2
      exacts [hfix7 c h1, hnc c h2]), parseOneAddr_http hh hp]
  · rw [parseHostPortAddr_single (fun c hc => by
      rcases List.mem_append.mp hc with h1 | h2
      exacts [hfix8 c h1, hnc c h2]), parseOneAddr_https hh hp]
  · intro hno
    rw [parseHostPortAddr_single (fun c hc => by
      rcases List.mem_append.mp hc with h1 | h2
      exacts [hfixu c h1, hnc c h2]), parseOneAddr_unix hh hp hno]

/-- Closed witness for the amended C6 at a concrete host and port. -/
theorem c6_witness :
    ("192.168.1.1".toList.all hostOKChar = true ∧ "8250".toList.all isDigitGo = true ∧
      strContains ("192.168.1.1".toList ++ ':' :: "8250".toList) httpMarker = false) ∧
    ParseHostPortAddr ("192.168.1.1".toList ++ ':' :: "8250".toList) =
      .ok [httpSlashes ++ ("192.168.1.1".toList ++ ':' :: "8250".toList)] ∧
    ParseHostPortAddr (httpsSlashes ++ ("192.168.1.1".toList ++ ':' :: "8250".toList)) =
      .ok [httpsSlashes ++ ("192.168.1.1".toList ++ ':' :: "8250".toList)] := by
  refine ⟨⟨by decide, by decide, by decide⟩, ?_, ?_⟩
  · exact (c6_candidate_normalization "192.168.1.1".toList "8250".toList (by decide)
      (by decide)).1 (by decide)
  · exact (c6_candidate_normalization "192.168.1.1".toList "8250".toList (by decide)
      (by decide)).2.2.1

/-! ## Loop characterization for C7 and C9 -/

theorem parseAddrsLoop_ok {l : List Str} {r : List Str} (h : parseAddrsLoop l = .ok r) :
    r.length = l.length ∧
    ∀ i (h1 : i < l.length) (h2 : i < r.length),
      parseOneAddr (l.get ⟨i, h1⟩) = .ok (r.get ⟨i, h2⟩) := by
  induction l generalizing r with
  | nil =>
    simp only [parseAddrsLoop, Except.ok.injEq] at h
    subst h
    exact ⟨rfl, fun i h1 h2 => absurd h1 (by simp)⟩
  | cons c t ih =>
    simp only [parseAddrsLoop] at h
    cases hone : parseOneAddr c with
    | error e => rw [hone] at h; exact absurd h (by simp)
    | ok x =>
      rw [hone] at h
      cases hrec : parseAddrsLoop t with
      | error e => rw [hrec] at h; exact absurd h (by simp)
      | ok rs =>
        rw [hrec] at h
        simp only [Except.ok.injEq] at h
        subst h
        obtain ⟨hlen, hget⟩ := ih hrec
        refine ⟨by simp [hlen], ?_⟩
        intro i h1 h2
        cases i with
        | zero => simpa using hone
        | succ i' =>
          simpa using hget i' (by simpa using h1) (by simpa using h2)

theorem parseAddrsLoop_error {l : List Str} {e : ParseAddrError}
    (h : parseAddrsLoop l = .error e) :
    ∃ pre c post, l = pre ++ c :: post ∧ (∀ c' ∈ pre, ∃ r, parseOneAddr c' = .ok r) ∧
      parseOneAddr c = .error e := by
  induction l with
  | nil => exact absurd h (by simp [parseAddrsLoop])
  | cons c t ih =>
    simp only [parseAddrsLoop] at h
    cases hone : parseOneAddr c with
    | error e' =>
      rw [hone] at h
      simp only [Except.error.injEq] at h
      subst h
      exact ⟨[], c, t, rfl, by simp, hone⟩
    | ok x =>
      rw [hone] at h
      cases hrec : parseAddrsLoop t with
      | error e' =>
        rw [hrec] at h
        simp only [Except.error.injEq] at h
        subst h
        obtain ⟨pre, c', post, heq, hpre, hc'⟩ := ih hrec
        refine ⟨c :: pre, c', post, by simp [heq], ?_, hc'⟩
        intro d hd
        rcases List.mem_cons.mp hd with rfl | hd'
        · exact ⟨x, hone⟩
        · exact hpre d hd'
      | ok rs => rw [hrec] at h; exact absurd h (by simp)

theorem parseAddrsLoop_mem_error {l : List Str} {c : Str} (hc : c ∈ l) {e0 : ParseAddrError}
    (he : parseOneAddr c = .error e0) : ∃ e, parseAddrsLoop l = .error e := by
  induction l with
  | nil => simp at hc
  | cons a t ih =>
    cases hone : parseOneAddr a with
    | error e' => exact ⟨e', by simp [parseAddrsLoop, hone]⟩
    | ok x =>
      rcases List.mem_cons.mp hc with rfl | hct
      · rw [hone] at he; exact absurd he (by simp)
      · obtain ⟨e, hrec⟩ := ih hct
        exact ⟨e, by simp [parseAddrsLoop, hone, hrec]⟩

theorem parseOneAddr_error_cases {cand : Str} {e : ParseAddrError}
    (h : parseOneAddr cand = .error e) :
    (∃ pe, e = .urlParseErr pe ∧ urlParse (normalizeCand cand) = .error pe) ∨
    (∃ u, urlParse (normalizeCand cand) = .ok u ∧ e = .invalidScheme (normalizeCand cand) ∧
      ¬(u.scheme = "http".toList ∨ u.scheme = "https".toList ∨
        u.scheme = "unix".toList ∨ u.scheme = "unixs".toList)) ∨
    (∃ u ae, urlParse (normalizeCand cand) = .ok u ∧
      (u.scheme = "http".toList ∨ u.scheme = "https".toList ∨
        u.scheme = "unix".toList ∨ u.scheme = "unixs".toList) ∧
      splitHostPort u.host = .error ae ∧ e = .invalidHostPort (normalizeCand cand)) ∨
    (∃ u hp, urlParse (normalizeCand cand) = .ok u ∧
      (u.scheme = "http".toList ∨ u.scheme = "https".toList ∨
        u.scheme = "unix".toList ∨ u.scheme = "unixs".toList) ∧
      splitHostPort u.host = .ok hp ∧ u.path ≠ [] ∧
      e = .unexpectedPath (normalizeCand cand)) := by
  rw [parseOneAddr_eval] at h
  cases hu : urlParse (normalizeCand cand) with
  | error pe =>
    rw [hu] at h
    simp only [Except.error.injEq] at h
    exact Or.inl ⟨pe, h.symm, by simp [hu]⟩
  | ok u =>
    rw [hu] at h
    by_cases hsch : u.scheme = "http".toList ∨ u.scheme = "https".toList ∨
        u.scheme = "unix".toList ∨ u.scheme = "unixs".toList
    · have hb : (!decide (u.scheme = "http".toList ∨ u.scheme = "https".toList ∨
          u.scheme = "unix".toList ∨ u.scheme = "unixs".toList)) = false := by
        rw [decide_eq_true hsch]
        rfl
      simp only [hb, Bool.false_eq_true, if_false] at h
      cases hshp : splitHostPort u.host with
      | error ae =>
        rw [hshp] at h
        simp only [Except.error.injEq] at h
        exact Or.inr (Or.inr (Or.inl ⟨u, ae, by simp [hu], hsch, by simp [hshp], h.symm⟩))
      | ok hp =>
        rw [hshp] at h
        by_cases hpath : u.path = []
        · rw [hpath] at h
          simp at h
        · rw [if_pos hpath] at h
          simp only [Except.error.injEq] at h
          exact Or.inr (Or.inr (Or.inr
            ⟨u, hp, by simp [hu], hsch, by simp [hshp], hpath, h.symm⟩))
    · have hb : (!decide (u.scheme = "http".toList ∨ u.scheme = "https".toList ∨
          u.scheme = "unix".toList ∨ u.scheme = "unixs".toList)) = true := by
        rw [decide_eq_false hsch]
        rfl
      simp only [hb, if_true, Except.error.injEq] at h
      exact Or.inr (Or.inl ⟨u, by simp [hu], h.symm, hsch⟩)

/-- C7 counterexample: on `bad::port` the prepended text `http://bad::port`
fails URI parsing (non-numeric text after the last colon of the authority),
so the call fails with a propagated parse error — a failure mode outside
the claim's three-way taxonomy, where the claim asserts success. -/
theorem c7_counterexample :
    ParseHostPortAddr "bad::port".toList =
      .error (.urlParseErr (.invalidPort ":port".toList)) ∧
    (∀ s, ParseAddrError.urlParseErr (.invalidPort ":port".toList) ≠ .invalidScheme s) ∧
    (∀ s, ParseAddrError.urlParseErr (.invalidPort ":port".toList) ≠ .invalidHostPort s) ∧
    (∀ s, ParseAddrError.urlParseErr (.invalidPort ":port".toList) ≠ .unexpectedPath s) :=
  ⟨rfl, fun _ h => ParseAddrError.noConfusion h, fun _ h => ParseAddrError.noConfusion h,
    fun _ h => ParseAddrError.noConfusion h⟩

/-- C7 (amended): candidates are processed left to right and the first
failure aborts the call; a success returns one normalized string per
candidate in input order (duplicates preserved); a failing candidate fails
with a propagated URI-parse error, or — with the parsed URL in hand — an
invalid-scheme, invalid-host:port, or unexpected-path error, the checks
applied in that order. -/
theorem c7_first_failure_wins (s : Str) :
    (∀ l, ParseHostPortAddr s = .ok l →
      l.length = (goSplitComma s).length ∧
      ∀ i (h1 : i < (goSplitComma s).length) (h2 : i < l.length),
        parseOneAddr ((goSplitComma s).get ⟨i, h1⟩) = .ok (l.get ⟨i, h2⟩)) ∧
    (∀ e, ParseHostPortAddr s = .error e →
      ∃ pre c post, goSplitComma s = pre ++ c :: post ∧
        (∀ c' ∈ pre, ∃ r, parseOneAddr c' = .ok r) ∧ parseOneAddr c = .error e) ∧
    (∀ cand e, parseOneAddr cand = .error e →
      (∃ pe, e = .urlParseErr pe ∧ urlParse (normalizeCand cand) = .error pe) ∨
      (∃ u, urlParse (normalizeCand cand) = .ok u ∧
        e = .invalidScheme (normalizeCand cand) ∧
        ¬(u.scheme = "http".toList ∨ u.scheme = "https".toList ∨
          u.scheme = "unix".toList ∨ u.scheme = "unixs".toList)) ∨
      (∃ u ae, urlParse (normalizeCand cand) = .ok u ∧
        (u.scheme = "http".toList ∨ u.scheme = "https".toList ∨
          u.scheme = "unix".toList ∨ u.scheme = "unixs".toList) ∧
        splitHostPort u.host = .error ae ∧ e = .invalidHostPort (normalizeCand cand)) ∨
      (∃ u hp, urlParse (normalizeCand cand) = .ok u ∧
        (u.scheme = "http".toList ∨ u.scheme = "https".toList ∨
          u.scheme = "unix".toList ∨ u.scheme = "unixs".toList) ∧
        splitHostPort u.host = .ok hp ∧ u.path ≠ [] ∧
        e = .unexpectedPath (normalizeCand cand))) :=
  ⟨fun _ h => parseAddrsLoop_ok h, fun _ h => parseAddrsLoop_error h,
    fun _ _ h => parseOneAddr_error_cases h⟩

/-- Closed witness for the amended C7: a two-candidate input processed in
order, and a failing input whose error comes from its first candidate. -/
theorem c7_witness :
    ParseHostPortAddr "a:1,b:2".toList = .ok ["http://a:1".toList, "http://b:2".toList] ∧
    ["http://a:1".toList, "http://b:2".toList].length =
      (goSplitComma "a:1,b:2".toList).length := by
  refine ⟨rfl, ?_⟩
  exact ((c7_first_failure_wins "a:1,b:2".toList).1
    ["http://a:1".toList, "http://b:2".toList] rfl).1

/-! ## Empty candidates (C9) -/

theorem parseOneAddr_trim_empty {c : Str} (h : trimSpace c = []) :
    parseOneAddr c = .error (.invalidHostPort httpSlashes) := by
  have hn : normalizeCand c = httpSlashes := by
    simp only [normalizeCand, h]
    decide
  rw [parseOneAddr_eval, hn]
  rfl

theorem goSplitComma_ne_nil (s : Str) : goSplitComma s ≠ [] := by
  cases s with
  | nil => simp [goSplitComma]
  | cons c t =>
    simp only [goSplitComma]
    split
    · simp
    · split <;> simp

theorem goSplitComma_append (a b : Str) :
    goSplitComma (a ++ ',' :: b) = goSplitComma a ++ goSplitComma b := by
  induction a with
  | nil => simp [goSplitComma]
  | cons c t ih =>
    by_cases hc : c = ','
    · subst hc
      simp [goSplitComma, ih]
    · obtain ⟨g, gs, hsp⟩ : ∃ g gs, goSplitComma t = g :: gs := by
        cases hsp : goSplitComma t with
        | nil => exact absurd hsp (goSplitComma_ne_nil t)
        | cons g gs => exact ⟨g, gs, rfl⟩
      simp [goSplitComma, if_neg hc, ih, hsp]

/-- C9 counterexample: an input with a trailing comma on which the call
returns an unexpected-path error (from its first candidate), not the
invalid-host-port error the claim promises. -/
theorem c9_counterexample :
    ParseHostPortAddr "unix://1.2.3.4:80,".toList =
      .error (.unexpectedPath "http://unix://1.2.3.4:80".toList) ∧
    (∀ s, ParseAddrError.unexpectedPath "http://unix://1.2.3.4:80".toList ≠
      .invalidHostPort s) :=
  ⟨rfl, fun _ h => ParseAddrError.noConfusion h⟩

/-- C9 (amended): an empty candidate always fails — it is trimmed to the
empty string, becomes `http://` with an empty host, and host:port splitting
reports the invalid-host-port error — so the call never succeeds when any
candidate trims to empty; with a leading comma that error is the call's
result, while with a trailing or doubled comma the call fails with the
first failing candidate's error, which need not be invalid-host-port. -/
theorem c9_empty_candidate_rejected (s : Str) :
    (∀ c ∈ goSplitComma s, trimSpace c = [] →
      parseOneAddr c = .error (.invalidHostPort httpSlashes) ∧
      ∀ l, ParseHostPortAddr s ≠ .ok l) ∧
    ParseHostPortAddr (',' :: s) = .error (.invalidHostPort httpSlashes) ∧
    (∃ e, ParseHostPortAddr (s ++ [',']) = .error e) ∧
    (∀ t, ∃ e, ParseHostPortAddr (s ++ ',' :: ',' :: t) = .error e) := by
  have hpe : parseOneAddr [] = .error (.invalidHostPort httpSlashes) :=
    parseOneAddr_trim_empty rfl
  refine ⟨?_, ?_, ?_, ?_⟩
  · intro c hc htrim
    refine ⟨parseOneAddr_trim_empty htrim, ?_⟩
    intro l hok
    obtain ⟨e, herr⟩ := parseAddrsLoop_mem_error hc (parseOneAddr_trim_empty htrim)
    rw [show ParseHostPortAddr s = parseAddrsLoop (goSplitComma s) from rfl, herr] at hok
    exact absurd hok (by simp)
  · rw [show ParseHostPortAddr (',' :: s) = parseAddrsLoop (goSplitComma (',' :: s)) from rfl,
      show goSplitComma (',' :: s) = [] :: goSplitComma s from by simp [goSplitComma]]
    simp [parseAddrsLoop, hpe]
  · have hmem : ([] : Str) ∈ goSplitComma (s ++ [',']) := by
      rw [show (s ++ [','] : Str) = s ++ ',' :: [] from rfl, goSplitComma_append]
      simp [goSplitComma]
    obtain ⟨e, herr⟩ := parseAddrsLoop_mem_error hmem hpe
    exact ⟨e, herr⟩
  · intro t
    have hmem : ([] : Str) ∈ goSplitComma (s ++ ',' :: ',' :: t) := by
      rw [goSplitComma_append]
      simp [goSplitComma]
    obtain ⟨e, herr⟩ := parseAddrsLoop_mem_error hmem hpe
    exact ⟨e, herr⟩

/-- Closed witness for the amended C9 at the empty input, a leading comma,
and a trailing comma. -/
theorem c9_witness :
    (([] : Str) ∈ goSplitComma [] ∧ trimSpace ([] : Str) = []) ∧
    parseOneAddr [] = .error (.invalidHostPort httpSlashes) ∧
    (∀ l, ParseHostPortAddr [] ≠ .ok l) ∧
    ParseHostPortAddr (',' :: "a:1".toList) = .error (.invalidHostPort httpSlashes) ∧
    (∃ e, ParseHostPortAddr ("a:1".toList ++ [',']) = .error e) := by
  have h1 := (c9_empty_candidate_rejected []).1 [] (by simp [goSplitComma]) rfl
  refine ⟨⟨by simp [goSplitComma], rfl⟩, h1.1, h1.2, ?_, ?_⟩
  · exact (c9_empty_candidate_rejected "a:1".toList).2.1
  · exact (c9_empty_candidate_rejected "a:1".toList).2.2.1
